import Mathlib

/-!
Verification of the stored-schema discrepancy detector
(`packages/dds/tree/src/feature-libraries/modular-schema/discrepancies.ts`).

The TypeScript code is shallowly embedded as follows:
* a JavaScript `Map` (insertion-ordered, unique keys) is an association list
  `List (String × α)`; `Map.has` is `mapHas`, `Map.get` is `mapGet`, and
  iteration order is list order;
* a JavaScript `Set` of type identifiers (`TreeTypeSet`, possibly `undefined`)
  is `Option (List String)`; `Set.has` is `setHas`;
* the class hierarchy `LeafNodeStoredSchema` / `MapNodeStoredSchema` /
  `ObjectNodeStoredSchema` with `instanceof` dispatch is the inductive
  `TreeNodeStoredSchema`, whose extra constructor `unknown` stands for a
  foreign object that is an instance of none of the three classes (it carries
  the `constructor.name` string the code passes to `throwUnsupportedNodeType`);
* a thrown exception (either `throwUnsupportedNodeType` or a failed `assert`)
  is `Except.error` carrying the message, so a throw aborts the walk and
  yields no partial result list, as in the source.
-/

namespace SchemaDiscrepancy

/-- Node-type identifiers are strings in the source (`TreeNodeSchemaIdentifier`). -/
abbrev TreeNodeSchemaIdentifier := String

/-- Field keys are strings in the source (`FieldKey`). -/
abbrev FieldKey := String

/-- Field-kind identifiers (optional / required / sequence / ...) are strings. -/
abbrev FieldKindIdentifier := String

/-- `ValueSchema` is a primitive-value-type enumeration; modelled as `Nat`. -/
abbrev ValueSchema := Nat

/-- `TreeTypeSet = ReadonlySet<TreeNodeSchemaIdentifier> | undefined`:
`none` is `undefined` (no restriction), `some l` is a set with iteration
order `l`. -/
abbrev TreeTypeSet := Option (List TreeNodeSchemaIdentifier)

/-- `TreeFieldStoredSchema`: a field-kind identifier plus an optional
allowed-type set. -/
structure TreeFieldStoredSchema where
  kind : FieldKindIdentifier
  types : TreeTypeSet
deriving DecidableEq, Repr

/-- The polymorphic node schema. `leaf`, `map` and `object` are the three
known classes; `unknown` models any other object reaching the `instanceof`
chain (its argument is the `constructor.name` string). -/
inductive TreeNodeStoredSchema where
  | leaf (leafValue : Option ValueSchema)
  | map (mapFields : TreeFieldStoredSchema)
  | object (objectNodeFields : List (FieldKey × TreeFieldStoredSchema))
  | unknown (ctorName : String)
deriving DecidableEq, Repr

/-- `TreeStoredSchema`: a root field schema plus the node-schema map. -/
structure TreeStoredSchema where
  rootFieldSchema : TreeFieldStoredSchema
  nodeSchema : List (TreeNodeSchemaIdentifier × TreeNodeStoredSchema)
deriving DecidableEq, Repr

/-- `Map.has`. -/
def mapHas {α : Type} (m : List (String × α)) (k : String) : Bool :=
  m.any (fun p => p.1 == k)

/-- `Map.get`: the value stored at `k` (`none` is JavaScript `undefined`). -/
def mapGet {α : Type} (m : List (String × α)) (k : String) : Option α :=
  (m.find? (fun p => p.1 == k)).map (fun p => p.2)

/-- `Set.has` on a type set's element list. -/
def setHas (s : List TreeNodeSchemaIdentifier) (x : TreeNodeSchemaIdentifier) : Bool :=
  s.contains x

/-- `SchemaFactoryNodeKind = "object" | "leaf" | "map"`. -/
inductive SchemaFactoryNodeKind where
  | object
  | leaf
  | map
deriving DecidableEq, Repr

/-- The three field-level incompatibility records
(`AllowedTypeIncompatibility`, `FieldKindIncompatibility`,
`ValueSchemaIncompatibility`); the constructor plays the role of the
`mismatch` discriminant tag. An `identifier` of `none` is the root field. -/
inductive FieldIncompatibility where
  | allowedTypes (identifier : Option String)
      (view stored : List TreeNodeSchemaIdentifier)
  | fieldKind (identifier : Option String)
      (view stored : Option FieldKindIdentifier)
  | valueSchema (identifier : String) (view stored : Option ValueSchema)
deriving DecidableEq, Repr

/-- `Incompatibility = FieldIncompatibility | NodeIncompatibility`. A
`FieldIncompatibility` occurring directly in the output list is wrapped with
`field`; `nodeKind` and `nodeFields` are the two `NodeIncompatibility`
records. -/
inductive Incompatibility where
  | field (f : FieldIncompatibility)
  | nodeKind (identifier : TreeNodeSchemaIdentifier)
      (view stored : Option SchemaFactoryNodeKind)
  | nodeFields (identifier : TreeNodeSchemaIdentifier)
      (differences : List FieldIncompatibility)
deriving DecidableEq, Repr

/-- The local helper `findSetDiscrepancies` of `trackFieldDiscrepancies`:
three-way case split on definedness, returning the pair of one-sided
difference lists. -/
def findSetDiscrepancies (a b : TreeTypeSet) :
    List TreeNodeSchemaIdentifier × List TreeNodeSchemaIdentifier :=
  match a, b with
  | none, none => ([], [])
  | some a, some b =>
      (a.filter (fun v => ! setHas b v), b.filter (fun v => ! setHas a v))
  | some a, none => (a, [])
  | none, some b => ([], b)

/-- `trackFieldDiscrepancies(view, stored, keyOrRoot)`: allowed-type diff
(pushed when either one-sided list is non-empty), then field-kind diff
(pushed when the kinds differ). `keyOrRoot = none` marks the root field. -/
def trackFieldDiscrepancies (view stored : TreeFieldStoredSchema)
    (keyOrRoot : Option String) : List FieldIncompatibility :=
  let allowedTypesDiscrepancies := findSetDiscrepancies view.types stored.types
  let differences : List FieldIncompatibility :=
    if allowedTypesDiscrepancies.1.length > 0 ∨ allowedTypesDiscrepancies.2.length > 0 then
      [FieldIncompatibility.allowedTypes keyOrRoot
        allowedTypesDiscrepancies.1 allowedTypesDiscrepancies.2]
    else []
  if view.kind ≠ stored.kind then
    differences ++ [FieldIncompatibility.fieldKind keyOrRoot (some view.kind) (some stored.kind)]
  else differences

/-- The pushes of one iteration of the first (view-side) loop of
`trackObjectNodeDiscrepancies`: a one-sided `fieldKind` record when the
stored side lacks the key, otherwise the generic field comparison of the two
`Map.get` results (the source casts away `undefined` there; the impossible
`undefined` case is the unreachable fallback of the match). -/
def objectFirstPassEntry (viewFields storedFields : List (FieldKey × TreeFieldStoredSchema))
    (p : FieldKey × TreeFieldStoredSchema) : List FieldIncompatibility :=
  if ! mapHas storedFields p.1 then
    [FieldIncompatibility.fieldKind (some p.1) (some p.2.kind) none]
  else
    match mapGet viewFields p.1, mapGet storedFields p.1 with
    | some vf, some sf => trackFieldDiscrepancies vf sf (some p.1)
    | _, _ => []

/-- `trackObjectNodeDiscrepancies`, written as the source's two imperative
loops: the first pass folds over the view's fields, accumulating both the
`viewFieldKeys` set and the pushed differences (its per-iteration body is
`objectFirstPassEntry`); the second pass folds over the stored fields,
skipping keys already in `viewFieldKeys`. -/
def trackObjectNodeDiscrepancies
    (viewFields storedFields : List (FieldKey × TreeFieldStoredSchema)) :
    List FieldIncompatibility :=
  let firstPass :=
    viewFields.foldl
      (fun (acc : List FieldKey × List FieldIncompatibility) p =>
        (acc.1 ++ [p.1], acc.2 ++ objectFirstPassEntry viewFields storedFields p))
      ([], [])
  storedFields.foldl
    (fun acc p =>
      if firstPass.1.contains p.1 then acc
      else acc ++ [FieldIncompatibility.fieldKind (some p.1) none (some p.2.kind)])
    firstPass.2

/-- The message built by `throwUnsupportedNodeType`. -/
def unsupportedNodeTypeMessage (type : String) : String :=
  "Unsupported node stored schema type: " ++ type

/-- `throwUnsupportedNodeType(type)`: throws a `TypeError` naming the type. -/
def throwUnsupportedNodeType {α : Type} (type : String) : Except String α :=
  Except.error (unsupportedNodeTypeMessage type)

/-- The body of one iteration of the view-side loop of
`getAllowedContentIncompatibilities`: `instanceof` dispatch on the view node,
existence check plus fetch (with the source's `assert`) on the stored side,
then kind comparison or kind-matched dispatch. -/
def compareViewNode (key : TreeNodeSchemaIdentifier)
    (viewNodeSchema : TreeNodeStoredSchema) (stored : TreeStoredSchema) :
    Except String (List Incompatibility) :=
  match viewNodeSchema with
  | TreeNodeStoredSchema.object viewFields =>
      if ! mapHas stored.nodeSchema key then
        Except.ok [Incompatibility.nodeKind key (some SchemaFactoryNodeKind.object) none]
      else
        match mapGet stored.nodeSchema key with
        | none =>
            Except.error
              "0x9be: The storedNodeSchema in stored.nodeSchema should not be undefined"
        | some storedNodeSchema =>
            match storedNodeSchema with
            | TreeNodeStoredSchema.map _ =>
                Except.ok [Incompatibility.nodeKind key
                  (some SchemaFactoryNodeKind.object) (some SchemaFactoryNodeKind.map)]
            | TreeNodeStoredSchema.leaf _ =>
                Except.ok [Incompatibility.nodeKind key
                  (some SchemaFactoryNodeKind.object) (some SchemaFactoryNodeKind.leaf)]
            | TreeNodeStoredSchema.object storedFields =>
                let differences := trackObjectNodeDiscrepancies viewFields storedFields
                if differences.length > 0 then
                  Except.ok [Incompatibility.nodeFields key differences]
                else Except.ok []
            | TreeNodeStoredSchema.unknown n => throwUnsupportedNodeType n
  | TreeNodeStoredSchema.map viewMapFields =>
      if ! mapHas stored.nodeSchema key then
        Except.ok [Incompatibility.nodeKind key (some SchemaFactoryNodeKind.map) none]
      else
        match mapGet stored.nodeSchema key with
        | none =>
            Except.error
              "0x9bf: The storedNodeSchema in stored.nodeSchema should not be undefined"
        | some storedNodeSchema =>
            match storedNodeSchema with
            | TreeNodeStoredSchema.object _ =>
                Except.ok [Incompatibility.nodeKind key
                  (some SchemaFactoryNodeKind.map) (some SchemaFactoryNodeKind.object)]
            | TreeNodeStoredSchema.leaf _ =>
                Except.ok [Incompatibility.nodeKind key
                  (some SchemaFactoryNodeKind.map) (some SchemaFactoryNodeKind.leaf)]
            | TreeNodeStoredSchema.map storedMapFields =>
                Except.ok
                  ((trackFieldDiscrepancies viewMapFields storedMapFields (some key)).map
                    Incompatibility.field)
            | TreeNodeStoredSchema.unknown n => throwUnsupportedNodeType n
  | TreeNodeStoredSchema.leaf viewLeafValue =>
      if ! mapHas stored.nodeSchema key then
        Except.ok [Incompatibility.nodeKind key (some SchemaFactoryNodeKind.leaf) none]
      else
        match mapGet stored.nodeSchema key with
        | none =>
            Except.error
              "0x9c0: The storedNodeSchema in stored.nodeSchema should not be undefined"
        | some storedNodeSchema =>
            match storedNodeSchema with
            | TreeNodeStoredSchema.map _ =>
                Except.ok [Incompatibility.nodeKind key
                  (some SchemaFactoryNodeKind.leaf) (some SchemaFactoryNodeKind.map)]
            | TreeNodeStoredSchema.object _ =>
                Except.ok [Incompatibility.nodeKind key
                  (some SchemaFactoryNodeKind.leaf) (some SchemaFactoryNodeKind.object)]
            | TreeNodeStoredSchema.leaf storedLeafValue =>
                if viewLeafValue ≠ storedLeafValue then
                  Except.ok [Incompatibility.field
                    (FieldIncompatibility.valueSchema key viewLeafValue storedLeafValue)]
                else Except.ok []
            | TreeNodeStoredSchema.unknown n => throwUnsupportedNodeType n
  | TreeNodeStoredSchema.unknown n => throwUnsupportedNodeType n

/-- The view-side loop: process the entries in iteration order, concatenating
each iteration's pushes; a throw in any iteration aborts the whole call. -/
def processViewNodes
    (entries : List (TreeNodeSchemaIdentifier × TreeNodeStoredSchema))
    (stored : TreeStoredSchema) : Except String (List Incompatibility) :=
  match entries with
  | [] => Except.ok []
  | p :: rest => do
      let incs ← compareViewNode p.1 p.2 stored
      let restIncs ← processViewNodes rest stored
      return incs ++ restIncs

/-- The kind label computed by the residual (stored-only) pass:
`instanceof Map ? "map" : instanceof Object ? "object" : "leaf"` — note that
anything that is neither a map nor an object (a leaf, but also a foreign
object) is labelled `leaf`; the residual pass never throws. -/
def residualNodeKind (n : TreeNodeStoredSchema) : SchemaFactoryNodeKind :=
  match n with
  | TreeNodeStoredSchema.map _ => SchemaFactoryNodeKind.map
  | TreeNodeStoredSchema.object _ => SchemaFactoryNodeKind.object
  | _ => SchemaFactoryNodeKind.leaf

/-- The root-field comparison: `trackFieldDiscrepancies` on the two root
field schemas, with no key (root), its records pushed directly. -/
def rootIncompatibilities (view stored : TreeStoredSchema) : List Incompatibility :=
  (trackFieldDiscrepancies view.rootFieldSchema stored.rootFieldSchema none).map
    Incompatibility.field

/-- The residual (stored-only) pass: one `nodeKind` record, with `view =
undefined`, for every stored entry whose key is not in `viewNodeKeys` (the
view loop having completed, that set holds every view key). -/
def residualIncompatibilities (view stored : TreeStoredSchema) : List Incompatibility :=
  stored.nodeSchema.filterMap (fun p =>
    if (view.nodeSchema.map (fun q => q.1)).contains p.1 then none
    else some (Incompatibility.nodeKind p.1 none (some (residualNodeKind p.2))))

/-- `getAllowedContentIncompatibilities(view, stored)`: root-field comparison,
then the view-side loop, then the residual pass over the stored map. -/
def getAllowedContentIncompatibilities (view stored : TreeStoredSchema) :
    Except String (List Incompatibility) := do
  let nodeIncs ← processViewNodes view.nodeSchema stored
  return rootIncompatibilities view stored ++ nodeIncs
    ++ residualIncompatibilities view stored

/-- `true` exactly on the three known node-schema classes. -/
def knownVariant : TreeNodeStoredSchema → Bool
  | TreeNodeStoredSchema.unknown _ => false
  | _ => true

/-- The kind of a known node schema (`none` on a foreign object). -/
def nodeKindOf : TreeNodeStoredSchema → Option SchemaFactoryNodeKind
  | TreeNodeStoredSchema.object _ => some SchemaFactoryNodeKind.object
  | TreeNodeStoredSchema.map _ => some SchemaFactoryNodeKind.map
  | TreeNodeStoredSchema.leaf _ => some SchemaFactoryNodeKind.leaf
  | TreeNodeStoredSchema.unknown _ => none

/-- Well-formedness of a `TreeStoredSchema` snapshot: the node-schema map has
unique keys (inherent to a JavaScript `Map`) and every node schema is one of
the three known variants. -/
def wellFormed (s : TreeStoredSchema) : Prop :=
  (s.nodeSchema.map Prod.fst).Nodup ∧ ∀ p ∈ s.nodeSchema, knownVariant p.2 = true

instance (s : TreeStoredSchema) : Decidable (wellFormed s) := by
  unfold wellFormed; infer_instance

/-- The identifier carried by a field-level record (`none` = root field). -/
def fieldIdentifier : FieldIncompatibility → Option String
  | FieldIncompatibility.allowedTypes i _ _ => i
  | FieldIncompatibility.fieldKind i _ _ => i
  | FieldIncompatibility.valueSchema i _ _ => some i

/-- The identifier carried by an output record (`none` = root field). -/
def incIdentifier : Incompatibility → Option String
  | Incompatibility.field f => fieldIdentifier f
  | Incompatibility.nodeKind i _ _ => some i
  | Incompatibility.nodeFields i _ => some i

/-- Is this record a `NodeKindIncompatibility` with identifier `k`? -/
def isNodeKindFor (k : String) : Incompatibility → Bool
  | Incompatibility.nodeKind i _ _ => i == k
  | _ => false

/-- Is this record a `NodeFieldsIncompatibility` with identifier `k`? -/
def isNodeFieldsFor (k : String) : Incompatibility → Bool
  | Incompatibility.nodeFields i _ => i == k
  | _ => false

/-- Is this record a `ValueSchemaIncompatibility` with identifier `k`? -/
def isValueSchemaFor (k : String) : Incompatibility → Bool
  | Incompatibility.field (FieldIncompatibility.valueSchema i _ _) => i == k
  | _ => false

/-- Is this record a field-level record with identifier `k`? -/
def isFieldRecordFor (k : String) : Incompatibility → Bool
  | Incompatibility.field f => fieldIdentifier f == some k
  | _ => false

/-- Is this record an `AllowedTypeIncompatibility`? -/
def isAllowedTypeRecord : FieldIncompatibility → Bool
  | FieldIncompatibility.allowedTypes _ _ _ => true
  | _ => false

/-! Concrete sample schemas used to exercise the theorems. -/

/-- A well-formed sample with nodes of all three kinds. -/
def wfSample : TreeStoredSchema :=
  ⟨⟨"optional", some ["Str"]⟩,
    [("Str", TreeNodeStoredSchema.leaf (some 1)),
     ("M", TreeNodeStoredSchema.map ⟨"sequence", some ["Str"]⟩),
     ("O", TreeNodeStoredSchema.object [("f", ⟨"required", some ["Str"]⟩)])]⟩

/-- A view schema with one node absent from `storedOnlyNodeSample`. -/
def viewOnlyNodeSample : TreeStoredSchema :=
  ⟨⟨"r", none⟩, [("OnlyV", TreeNodeStoredSchema.object [])]⟩

/-- A stored schema with one node absent from `viewOnlyNodeSample`. -/
def storedOnlyNodeSample : TreeStoredSchema :=
  ⟨⟨"r", none⟩, [("OnlyS", TreeNodeStoredSchema.leaf (some 2))]⟩

/-- View side of a node-kind mismatch (`N` is a leaf here, a map there). -/
def viewKindSample : TreeStoredSchema :=
  ⟨⟨"r", none⟩, [("N", TreeNodeStoredSchema.leaf (some 0))]⟩

/-- Stored side of the node-kind mismatch sample. -/
def storedKindSample : TreeStoredSchema :=
  ⟨⟨"r", none⟩, [("N", TreeNodeStoredSchema.map ⟨"m", none⟩)]⟩

/-- A schema holding a foreign (unsupported) node-schema object. -/
def unknownNodeSample : TreeStoredSchema :=
  ⟨⟨"r", none⟩, [("X", TreeNodeStoredSchema.unknown "Weird")]⟩

/-- A schema with no node schemas at all. -/
def emptyNodeSample : TreeStoredSchema := ⟨⟨"r", none⟩, []⟩

/-- View side of a kind-matched dispatch sample (leaf, map and object pairs). -/
def viewDispatchSample : TreeStoredSchema :=
  ⟨⟨"r", none⟩,
    [("L", TreeNodeStoredSchema.leaf (some 1)),
     ("MM", TreeNodeStoredSchema.map ⟨"optional", some ["A"]⟩),
     ("OO", TreeNodeStoredSchema.object [("f", ⟨"x", none⟩)])]⟩

/-- Stored side of the kind-matched dispatch sample. -/
def storedDispatchSample : TreeStoredSchema :=
  ⟨⟨"r", none⟩,
    [("L", TreeNodeStoredSchema.leaf (some 2)),
     ("MM", TreeNodeStoredSchema.map ⟨"optional", some ["B"]⟩),
     ("OO", TreeNodeStoredSchema.object [("g", ⟨"y", none⟩)])]⟩

section MapLemmas

variable {α : Type}

lemma mapGet_cons (k0 : String) (v0 : α) (t : List (String × α)) (k : String) :
    mapGet ((k0, v0) :: t) k = if k0 = k then some v0 else mapGet t k := by
  by_cases h : k0 = k
  · simp [mapGet, List.find?, h]
  · have hb : (k0 == k) = false := by simp [h]
    simp [mapGet, List.find?, hb, h]

lemma mapHas_cons (k0 : String) (v0 : α) (t : List (String × α)) (k : String) :
    mapHas ((k0, v0) :: t) k = if k0 = k then true else mapHas t k := by
  by_cases h : k0 = k
  · simp [mapHas, h]
  · have hb : (k0 == k) = false := by simp [h]
    simp [mapHas, hb, h]

lemma mapHas_eq_isSome (m : List (String × α)) (k : String) :
    mapHas m k = (mapGet m k).isSome := by
  induction m with
  | nil => rfl
  | cons p t ih =>
      obtain ⟨k0, v0⟩ := p
      by_cases h : k0 = k
      · simp [mapHas_cons, mapGet_cons, h]
      · simp [mapHas_cons, mapGet_cons, h, ih]

lemma mem_of_mapGet_eq_some {m : List (String × α)} {k : String} {v : α}
    (h : mapGet m k = some v) : (k, v) ∈ m := by
  induction m with
  | nil => simp [mapGet] at h
  | cons p t ih =>
      obtain ⟨k0, v0⟩ := p
      rw [mapGet_cons] at h
      by_cases hk : k0 = k
      · rw [if_pos hk] at h
        subst hk
        obtain rfl : v0 = v := Option.some.inj h
        exact List.mem_cons_self _ _
      · rw [if_neg hk] at h
        exact List.mem_cons_of_mem _ (ih h)

lemma mapGet_eq_some_of_mem {m : List (String × α)}
    (hnd : (m.map Prod.fst).Nodup) {p : String × α} (hp : p ∈ m) :
    mapGet m p.1 = some p.2 := by
  induction m with
  | nil => simp at hp
  | cons q t ih =>
      simp only [List.map_cons, List.nodup_cons] at hnd
      rcases List.mem_cons.mp hp with h | h
      · subst h
        simp [mapGet, List.find?]
      · have hne : q.1 ≠ p.1 := by
          intro he
          exact hnd.1 (he ▸ List.mem_map_of_mem Prod.fst h)
        have hb : (q.1 == p.1) = false := by simp [hne]
        simpa [mapGet, List.find?, hb] using ih hnd.2 h

lemma mapHas_true_of_mem {m : List (String × α)} {p : String × α} (hp : p ∈ m) :
    mapHas m p.1 = true := by
  simp only [mapHas, List.any_eq_true]
  exact ⟨p, hp, by simp⟩

lemma keysContains_eq_mapHas (m : List (String × α)) (k : String) :
    (m.map Prod.fst).contains k = mapHas m k := by
  induction m with
  | nil => rfl
  | cons p t ih =>
      by_cases h : p.1 = k
      · simp [mapHas, h]
      · have hb1 : (p.1 == k) = false := by simp [h]
        have hb2 : (k == p.1) = false := by simp [Ne.symm h]
        simpa [mapHas, List.contains_cons, hb1, hb2] using ih

lemma setHas_iff_mem (s : List TreeNodeSchemaIdentifier) (x : TreeNodeSchemaIdentifier) :
    setHas s x = true ↔ x ∈ s := by
  simp [setHas]

end MapLemmas

section FieldLemmas

/-- The allowed-type records inside a `trackFieldDiscrepancies` result, as an
explicit function of the two one-sided set differences. -/
lemma filter_allowed_trackField (v s : TreeFieldStoredSchema) (key : Option String) :
    (trackFieldDiscrepancies v s key).filter isAllowedTypeRecord =
      (if (findSetDiscrepancies v.types s.types).1.length > 0 ∨
          (findSetDiscrepancies v.types s.types).2.length > 0 then
        [FieldIncompatibility.allowedTypes key
          (findSetDiscrepancies v.types s.types).1
          (findSetDiscrepancies v.types s.types).2]
      else []) := by
  unfold trackFieldDiscrepancies
  by_cases h1 : (findSetDiscrepancies v.types s.types).1.length > 0 ∨
      (findSetDiscrepancies v.types s.types).2.length > 0 <;>
    by_cases h2 : v.kind ≠ s.kind <;>
      simp [h1, h2, isAllowedTypeRecord]

/-- Comparing a field schema with itself yields no differences. -/
lemma trackFieldDiscrepancies_self (f : TreeFieldStoredSchema) (key : Option String) :
    trackFieldDiscrepancies f f key = [] := by
  have hd : findSetDiscrepancies f.types f.types = ([], []) := by
    cases ht : f.types with
    | none => rfl
    | some a =>
        have h1 : a.filter (fun v => ! setHas a v) = [] :=
          List.filter_eq_nil_iff.mpr (by intro x hx; simp [setHas_iff_mem, hx])
        simp [findSetDiscrepancies, h1]
  simp [trackFieldDiscrepancies, hd]

/-- Every record emitted by `trackFieldDiscrepancies` carries the scoping
identifier it was called with, and none of them is a
`ValueSchemaIncompatibility`. -/
lemma trackField_scoped (v s : TreeFieldStoredSchema) (key : Option String) :
    ∀ f ∈ trackFieldDiscrepancies v s key,
      fieldIdentifier f = key ∧ ∀ i a b, f ≠ FieldIncompatibility.valueSchema i a b := by
  intro f hf
  unfold trackFieldDiscrepancies at hf
  by_cases h1 : (findSetDiscrepancies v.types s.types).1.length > 0 ∨
      (findSetDiscrepancies v.types s.types).2.length > 0 <;>
    by_cases h2 : v.kind ≠ s.kind <;>
      simp [h1, h2] at hf <;>
        first
        | (cases hf with
            | inl h => subst h; exact ⟨rfl, by intro i a b h; cases h⟩
            | inr h => subst h; exact ⟨rfl, by intro i a b h; cases h⟩)
        | (subst hf; exact ⟨rfl, by intro i a b h; cases h⟩)

end FieldLemmas

/-- C4: with both type sets defined, the allowed-type record is emitted
exactly when the sets differ as sets, and carries the two one-sided halves of
the symmetric difference; an element of both sets appears in neither half. -/
theorem allowedTypes_symmDiff (view stored : TreeFieldStoredSchema)
    (key : Option String) (a b : List TreeNodeSchemaIdentifier)
    (ha : view.types = some a) (hb : stored.types = some b) :
    ((trackFieldDiscrepancies view stored key).filter isAllowedTypeRecord =
      if a.filter (fun v => ! setHas b v) = [] ∧ b.filter (fun v => ! setHas a v) = []
      then []
      else [FieldIncompatibility.allowedTypes key
        (a.filter (fun v => ! setHas b v)) (b.filter (fun v => ! setHas a v))])
    ∧ ((∀ x, x ∈ a ↔ x ∈ b) ↔
        (trackFieldDiscrepancies view stored key).filter isAllowedTypeRecord = [])
    ∧ (∀ x, x ∈ a → x ∈ b →
        x ∉ a.filter (fun v => ! setHas b v) ∧ x ∉ b.filter (fun v => ! setHas a v)) := by
  have hset : findSetDiscrepancies view.types stored.types =
      (a.filter (fun v => ! setHas b v), b.filter (fun v => ! setHas a v)) := by
    rw [ha, hb]; rfl
  have hmain : (trackFieldDiscrepancies view stored key).filter isAllowedTypeRecord =
      if (a.filter (fun v => ! setHas b v)).length > 0 ∨
          (b.filter (fun v => ! setHas a v)).length > 0 then
        [FieldIncompatibility.allowedTypes key
          (a.filter (fun v => ! setHas b v)) (b.filter (fun v => ! setHas a v))]
      else [] := by
    have h := filter_allowed_trackField view stored key
    rw [hset] at h
    simpa using h
  refine ⟨?_, ?_, ?_⟩
  · rw [hmain]
    by_cases h : a.filter (fun v => ! setHas b v) = [] ∧ b.filter (fun v => ! setHas a v) = []
    · have hc : ¬((a.filter (fun v => ! setHas b v)).length > 0 ∨
          (b.filter (fun v => ! setHas a v)).length > 0) := by
        rw [h.1, h.2]; simp
      rw [if_neg hc, if_pos h]
    · have hc : (a.filter (fun v => ! setHas b v)).length > 0 ∨
          (b.filter (fun v => ! setHas a v)).length > 0 := by
        rcases not_and_or.mp h with h1 | h1
        · exact Or.inl (List.length_pos.mpr h1)
        · exact Or.inr (List.length_pos.mpr h1)
      rw [if_pos hc, if_neg h]
  · rw [hmain]
    constructor
    · intro hxy
      have h1 : a.filter (fun v => ! setHas b v) = [] := by
        apply List.filter_eq_nil_iff.mpr
        intro x hx
        simp [setHas_iff_mem, (hxy x).mp hx]
      have h2 : b.filter (fun v => ! setHas a v) = [] := by
        apply List.filter_eq_nil_iff.mpr
        intro x hx
        simp [setHas_iff_mem, (hxy x).mpr hx]
      have hc : ¬((a.filter (fun v => ! setHas b v)).length > 0 ∨
          (b.filter (fun v => ! setHas a v)).length > 0) := by
        rw [h1, h2]; simp
      rw [if_neg hc]
    · intro hres
      by_cases hc : (a.filter (fun v => ! setHas b v)).length > 0 ∨
          (b.filter (fun v => ! setHas a v)).length > 0
      · rw [if_pos hc] at hres
        cases hres
      · have h1 : a.filter (fun v => ! setHas b v) = [] := by
          rcases not_or.mp hc with ⟨h1, _⟩
          exact List.eq_nil_of_length_eq_zero (Nat.eq_zero_of_not_pos h1)
        have h2 : b.filter (fun v => ! setHas a v) = [] := by
          rcases not_or.mp hc with ⟨_, h2⟩
          exact List.eq_nil_of_length_eq_zero (Nat.eq_zero_of_not_pos h2)
        intro x
        constructor
        · intro hx
          have := List.filter_eq_nil_iff.mp h1 x hx
          simpa [setHas_iff_mem] using this
        · intro hx
          have := List.filter_eq_nil_iff.mp h2 x hx
          simpa [setHas_iff_mem] using this
  · intro x hxa hxb
    constructor
    · simp [List.mem_filter, setHas_iff_mem, hxb]
    · simp [List.mem_filter, setHas_iff_mem, hxa]

/-- C4 witness: view types `{A, B}` versus stored types `{B, C}` emits one
allowed-type record with `view = [A]` and `stored = [C]`. -/
theorem allowedTypes_symmDiff_witness :
    (⟨"optional", some ["A", "B"]⟩ : TreeFieldStoredSchema).types = some ["A", "B"] ∧
    (trackFieldDiscrepancies ⟨"optional", some ["A", "B"]⟩ ⟨"optional", some ["B", "C"]⟩
        none).filter isAllowedTypeRecord =
      [FieldIncompatibility.allowedTypes none ["A"] ["C"]] := by
  constructor
  · rfl
  · have h := (allowedTypes_symmDiff ⟨"optional", some ["A", "B"]⟩
      ⟨"optional", some ["B", "C"]⟩ none ["A", "B"] ["B", "C"] rfl rfl).1
    rw [h]
    rfl

/-- C5: `types = undefined` is never conflated with the empty set: two
undefined sides emit no allowed-type record; one defined side reports all of
its elements as one-sided differences on that side only (hence undefined
versus empty-set emits nothing). -/
theorem undefinedTypes_cases (view stored : TreeFieldStoredSchema) (key : Option String) :
    (view.types = none → stored.types = none →
      (trackFieldDiscrepancies view stored key).filter isAllowedTypeRecord = [])
    ∧ (∀ b, view.types = none → stored.types = some b →
        (trackFieldDiscrepancies view stored key).filter isAllowedTypeRecord =
          if b = [] then [] else [FieldIncompatibility.allowedTypes key [] b])
    ∧ (∀ a, view.types = some a → stored.types = none →
        (trackFieldDiscrepancies view stored key).filter isAllowedTypeRecord =
          if a = [] then [] else [FieldIncompatibility.allowedTypes key a []]) := by
  refine ⟨?_, ?_, ?_⟩
  · intro hv hs
    have h := filter_allowed_trackField view stored key
    rw [hv, hs] at h
    simpa [findSetDiscrepancies] using h
  · intro b hv hs
    have h := filter_allowed_trackField view stored key
    rw [hv, hs] at h
    simp only [findSetDiscrepancies] at h
    rw [h]
    by_cases hb : b = []
    · simp [hb]
    · have : b.length > 0 := List.length_pos.mpr hb
      simp [hb, this]
  · intro a hv hs
    have h := filter_allowed_trackField view stored key
    rw [hv, hs] at h
    simp only [findSetDiscrepancies] at h
    rw [h]
    by_cases ha : a = []
    · simp [ha]
    · have : a.length > 0 := List.length_pos.mpr ha
      simp [ha, this]

section FoldLemmas

variable {α β γ : Type}

lemma foldl_pair_append (f : α → List β) (g : α → List γ) (l : List α)
    (acc : List β × List γ) :
    l.foldl (fun acc p => (acc.1 ++ f p, acc.2 ++ g p)) acc
      = (acc.1 ++ l.flatMap f, acc.2 ++ l.flatMap g) := by
  induction l generalizing acc with
  | nil => simp
  | cons p t ih => simp [List.foldl_cons, ih, List.flatMap_cons]

lemma foldl_skip_append (c : α → Bool) (h : α → β) (l : List α) (acc : List β) :
    l.foldl (fun acc p => if c p then acc else acc ++ [h p]) acc
      = acc ++ l.filterMap (fun p => if c p then none else some (h p)) := by
  induction l generalizing acc with
  | nil => simp
  | cons p t ih =>
      by_cases hc : c p <;> simp [List.foldl_cons, hc, ih, List.filterMap_cons]

lemma flatMap_singleton_keys (l : List (String × α)) :
    l.flatMap (fun p => [p.1]) = l.map Prod.fst := by
  induction l with
  | nil => rfl
  | cons p t ih => simp [List.flatMap_cons, ih]

end FoldLemmas

/-- Decomposition of the object-node comparator's two accumulator loops into
the view-side pass (a `flatMap`) followed by the stored-side residual pass
(a `filterMap`). -/
lemma trackObject_decomp
    (viewFields storedFields : List (FieldKey × TreeFieldStoredSchema)) :
    trackObjectNodeDiscrepancies viewFields storedFields =
      viewFields.flatMap (objectFirstPassEntry viewFields storedFields)
        ++ storedFields.filterMap (fun p =>
            if mapHas viewFields p.1 then none
            else some (FieldIncompatibility.fieldKind (some p.1) none (some p.2.kind))) := by
  unfold trackObjectNodeDiscrepancies
  rw [foldl_pair_append, foldl_skip_append]
  simp only [List.nil_append, flatMap_singleton_keys]
  congr 1
  apply List.filterMap_congr
  intro p _
  rw [keysContains_eq_mapHas]

/-- Comparing an object node's field map with itself yields no differences. -/
lemma trackObjectNodeDiscrepancies_self
    (fs : List (FieldKey × TreeFieldStoredSchema)) :
    trackObjectNodeDiscrepancies fs fs = [] := by
  rw [trackObject_decomp]
  have h1 : fs.flatMap (objectFirstPassEntry fs fs) = [] := by
    apply List.flatMap_eq_nil_iff.mpr
    intro p hp
    have hhas : mapHas fs p.1 = true := mapHas_true_of_mem hp
    have hsome : (mapGet fs p.1).isSome = true := by rw [← mapHas_eq_isSome]; exact hhas
    obtain ⟨q, hq⟩ := Option.isSome_iff_exists.mp hsome
    simp [objectFirstPassEntry, hhas, hq, trackFieldDiscrepancies_self]
  have h2 : fs.filterMap (fun p =>
      if mapHas fs p.1 then none
      else some (FieldIncompatibility.fieldKind (some p.1) none (some p.2.kind))) = [] := by
    apply List.filterMap_eq_nil_iff.mpr
    intro p hp
    simp [mapHas_true_of_mem hp]
  rw [h1, h2]
  rfl

/-- C8: the object-node comparator's output is the first (view-side) pass —
a one-sided `fieldKind` record for each view-only key and the generic field
comparison for each shared key, in the view map's iteration order — followed
by a one-sided `fieldKind` record for each stored-only key in the stored
map's iteration order; a shared key with identical field schemas contributes
nothing. -/
theorem objectFieldResiduals
    (viewFields storedFields : List (FieldKey × TreeFieldStoredSchema)) :
    trackObjectNodeDiscrepancies viewFields storedFields =
      viewFields.flatMap (objectFirstPassEntry viewFields storedFields)
        ++ storedFields.filterMap (fun p =>
            if mapHas viewFields p.1 then none
            else some (FieldIncompatibility.fieldKind (some p.1) none (some p.2.kind)))
    ∧ ∀ f key, trackFieldDiscrepancies f f key = [] :=
  ⟨trackObject_decomp viewFields storedFields, trackFieldDiscrepancies_self⟩

section WalkLemmas

lemma processViewNodes_cons (p : TreeNodeSchemaIdentifier × TreeNodeStoredSchema)
    (t : List (TreeNodeSchemaIdentifier × TreeNodeStoredSchema))
    (stored : TreeStoredSchema) :
    processViewNodes (p :: t) stored =
      match compareViewNode p.1 p.2 stored with
      | Except.error e => Except.error e
      | Except.ok incs =>
          match processViewNodes t stored with
          | Except.error e => Except.error e
          | Except.ok rest => Except.ok (incs ++ rest) := by
  cases h1 : compareViewNode p.1 p.2 stored <;>
    cases h2 : processViewNodes t stored <;>
      simp only [processViewNodes, h1, h2] <;> rfl

lemma processViewNodes_ok_forall₂
    {entries : List (TreeNodeSchemaIdentifier × TreeNodeStoredSchema)}
    {stored : TreeStoredSchema} {l : List Incompatibility}
    (h : processViewNodes entries stored = Except.ok l) :
    ∃ parts, List.Forall₂ (fun p out => compareViewNode p.1 p.2 stored = Except.ok out)
        entries parts ∧ l = parts.flatten := by
  induction entries generalizing l with
  | nil =>
      refine ⟨[], List.Forall₂.nil, ?_⟩
      simp only [processViewNodes] at h
      exact (Except.ok.inj h).symm
  | cons p t ih =>
      rw [processViewNodes_cons] at h
      cases h1 : compareViewNode p.1 p.2 stored with
      | error e => rw [h1] at h; cases h
      | ok incs =>
          rw [h1] at h
          cases h2 : processViewNodes t stored with
          | error e => rw [h2] at h; cases h
          | ok rest =>
              rw [h2] at h
              obtain ⟨parts, hf, hflat⟩ := ih h2
              obtain rfl : incs ++ rest = l := Except.ok.inj h
              exact ⟨incs :: parts, List.Forall₂.cons h1 hf, by simp [hflat]⟩

lemma processViewNodes_error_mem
    {entries : List (TreeNodeSchemaIdentifier × TreeNodeStoredSchema)}
    {stored : TreeStoredSchema} {e : String}
    (h : processViewNodes entries stored = Except.error e) :
    ∃ p ∈ entries, compareViewNode p.1 p.2 stored = Except.error e := by
  induction entries with
  | nil => simp only [processViewNodes] at h; cases h
  | cons p t ih =>
      rw [processViewNodes_cons] at h
      cases h1 : compareViewNode p.1 p.2 stored with
      | error e1 =>
          rw [h1] at h
          obtain rfl : e1 = e := Except.error.inj h
          exact ⟨p, List.mem_cons_self _ _, h1⟩
      | ok incs =>
          rw [h1] at h
          cases h2 : processViewNodes t stored with
          | error e2 =>
              rw [h2] at h
              obtain rfl : e2 = e := Except.error.inj h
              obtain ⟨q, hq, hc⟩ := ih h2
              exact ⟨q, List.mem_cons_of_mem _ hq, hc⟩
          | ok rest => rw [h2] at h; cases h

lemma processViewNodes_error_of_mem
    {entries : List (TreeNodeSchemaIdentifier × TreeNodeStoredSchema)}
    {stored : TreeStoredSchema} {p : TreeNodeSchemaIdentifier × TreeNodeStoredSchema}
    (hp : p ∈ entries) (he : ∃ e, compareViewNode p.1 p.2 stored = Except.error e) :
    ∃ e, processViewNodes entries stored = Except.error e := by
  induction entries with
  | nil => cases hp
  | cons q t ih =>
      rw [processViewNodes_cons]
      cases h1 : compareViewNode q.1 q.2 stored with
      | error e => exact ⟨e, rfl⟩
      | ok incs =>
          rcases List.mem_cons.mp hp with rfl | hmem
          · obtain ⟨e, he⟩ := he
            rw [he] at h1
            cases h1
          · obtain ⟨e, h2⟩ := ih hmem
            rw [h2]
            exact ⟨e, rfl⟩

lemma getIncs_eq (view stored : TreeStoredSchema) :
    getAllowedContentIncompatibilities view stored =
      match processViewNodes view.nodeSchema stored with
      | Except.error e => Except.error e
      | Except.ok nodeIncs =>
          Except.ok (rootIncompatibilities view stored ++ nodeIncs
            ++ residualIncompatibilities view stored) := by
  unfold getAllowedContentIncompatibilities
  cases processViewNodes view.nodeSchema stored <;> rfl

lemma mapGet_isSome_has {α : Type} {m : List (String × α)} {k : String} {v : α}
    (hm : mapGet m k = some v) : mapHas m k = true := by
  rw [mapHas_eq_isSome, hm]
  rfl

lemma compareViewNode_missing {key : TreeNodeSchemaIdentifier}
    {n : TreeNodeStoredSchema} {stored : TreeStoredSchema}
    (hk : knownVariant n = true) (h : mapHas stored.nodeSchema key = false) :
    compareViewNode key n stored =
      Except.ok [Incompatibility.nodeKind key (nodeKindOf n) none] := by
  cases n with
  | leaf v => simp [compareViewNode, h, nodeKindOf]
  | map f => simp [compareViewNode, h, nodeKindOf]
  | object fs => simp [compareViewNode, h, nodeKindOf]
  | unknown s => simp [knownVariant] at hk

lemma compareViewNode_kindMismatch {key : TreeNodeSchemaIdentifier}
    {n m : TreeNodeStoredSchema} {stored : TreeStoredSchema}
    {a b : SchemaFactoryNodeKind}
    (hm : mapGet stored.nodeSchema key = some m)
    (ha : nodeKindOf n = some a) (hb : nodeKindOf m = some b) (hab : a ≠ b) :
    compareViewNode key n stored =
      Except.ok [Incompatibility.nodeKind key (some a) (some b)] := by
  have hhas : mapHas stored.nodeSchema key = true := mapGet_isSome_has hm
  cases n <;> cases m <;>
    simp_all [compareViewNode, nodeKindOf]

lemma compareViewNode_objectObject {key : TreeNodeSchemaIdentifier}
    {vfs sfs : List (FieldKey × TreeFieldStoredSchema)} {stored : TreeStoredSchema}
    (hm : mapGet stored.nodeSchema key = some (TreeNodeStoredSchema.object sfs)) :
    compareViewNode key (TreeNodeStoredSchema.object vfs) stored =
      Except.ok (if (trackObjectNodeDiscrepancies vfs sfs).length > 0 then
        [Incompatibility.nodeFields key (trackObjectNodeDiscrepancies vfs sfs)]
      else []) := by
  have hhas : mapHas stored.nodeSchema key = true := mapGet_isSome_has hm
  by_cases hlen : (trackObjectNodeDiscrepancies vfs sfs).length > 0 <;>
    simp [compareViewNode, hhas, hm, hlen]

lemma compareViewNode_mapMap {key : TreeNodeSchemaIdentifier}
    {vmf smf : TreeFieldStoredSchema} {stored : TreeStoredSchema}
    (hm : mapGet stored.nodeSchema key = some (TreeNodeStoredSchema.map smf)) :
    compareViewNode key (TreeNodeStoredSchema.map vmf) stored =
      Except.ok ((trackFieldDiscrepancies vmf smf (some key)).map Incompatibility.field) := by
  have hhas : mapHas stored.nodeSchema key = true := mapGet_isSome_has hm
  simp [compareViewNode, hhas, hm]

lemma compareViewNode_leafLeaf {key : TreeNodeSchemaIdentifier}
    {vv sv : Option ValueSchema} {stored : TreeStoredSchema}
    (hm : mapGet stored.nodeSchema key = some (TreeNodeStoredSchema.leaf sv)) :
    compareViewNode key (TreeNodeStoredSchema.leaf vv) stored =
      Except.ok (if vv ≠ sv then
        [Incompatibility.field (FieldIncompatibility.valueSchema key vv sv)]
      else []) := by
  have hhas : mapHas stored.nodeSchema key = true := mapGet_isSome_has hm
  by_cases hv : vv = sv <;> simp [compareViewNode, hhas, hm, hv]

/-- Full description of the successful outcomes of one view-loop iteration:
either the stored side lacks the key (one one-sided `nodeKind` record), or
the stored entry was fetched and the iteration produced a kind-mismatch
record, an object/object, map/map or leaf/leaf comparison. -/
lemma compareViewNode_describe {key : TreeNodeSchemaIdentifier}
    {n : TreeNodeStoredSchema} {stored : TreeStoredSchema} {out : List Incompatibility}
    (h : compareViewNode key n stored = Except.ok out) :
    (mapHas stored.nodeSchema key = false ∧ knownVariant n = true ∧
      out = [Incompatibility.nodeKind key (nodeKindOf n) none])
    ∨ ∃ m, mapGet stored.nodeSchema key = some m ∧
        ((∃ a b, nodeKindOf n = some a ∧ nodeKindOf m = some b ∧ a ≠ b ∧
            out = [Incompatibility.nodeKind key (some a) (some b)])
          ∨ (∃ vfs sfs, n = TreeNodeStoredSchema.object vfs ∧
              m = TreeNodeStoredSchema.object sfs ∧
              out = (if (trackObjectNodeDiscrepancies vfs sfs).length > 0 then
                [Incompatibility.nodeFields key (trackObjectNodeDiscrepancies vfs sfs)]
              else []))
          ∨ (∃ vmf smf, n = TreeNodeStoredSchema.map vmf ∧
              m = TreeNodeStoredSchema.map smf ∧
              out = (trackFieldDiscrepancies vmf smf (some key)).map Incompatibility.field)
          ∨ (∃ vv sv, n = TreeNodeStoredSchema.leaf vv ∧
              m = TreeNodeStoredSchema.leaf sv ∧
              out = (if vv ≠ sv then
                [Incompatibility.field (FieldIncompatibility.valueSchema key vv sv)]
              else []))) := by
  by_cases hhas : mapHas stored.nodeSchema key = true
  · obtain ⟨m, hm⟩ := Option.isSome_iff_exists.mp
      (by rw [← mapHas_eq_isSome]; exact hhas)
    refine Or.inr ⟨m, hm, ?_⟩
    cases n with
    | unknown s => simp [compareViewNode, throwUnsupportedNodeType] at h
    | object vfs =>
        cases m with
        | unknown s =>
            exfalso
            simp [compareViewNode, hhas, hm, throwUnsupportedNodeType] at h
        | map f =>
            left
            refine ⟨SchemaFactoryNodeKind.object, SchemaFactoryNodeKind.map,
              rfl, rfl, by decide, ?_⟩
            rw [@compareViewNode_kindMismatch key (TreeNodeStoredSchema.object vfs)
              (TreeNodeStoredSchema.map f) stored SchemaFactoryNodeKind.object
              SchemaFactoryNodeKind.map hm rfl rfl (by decide)] at h
            exact (Except.ok.inj h).symm
        | leaf v =>
            left
            refine ⟨SchemaFactoryNodeKind.object, SchemaFactoryNodeKind.leaf,
              rfl, rfl, by decide, ?_⟩
            rw [@compareViewNode_kindMismatch key (TreeNodeStoredSchema.object vfs)
              (TreeNodeStoredSchema.leaf v) stored SchemaFactoryNodeKind.object
              SchemaFactoryNodeKind.leaf hm rfl rfl (by decide)] at h
            exact (Except.ok.inj h).symm
        | object sfs =>
            right; left
            refine ⟨vfs, sfs, rfl, rfl, ?_⟩
            rw [compareViewNode_objectObject hm] at h
            exact (Except.ok.inj h).symm
    | map vmf =>
        cases m with
        | unknown s =>
            exfalso
            simp [compareViewNode, hhas, hm, throwUnsupportedNodeType] at h
        | object sfs =>
            left
            refine ⟨SchemaFactoryNodeKind.map, SchemaFactoryNodeKind.object,
              rfl, rfl, by decide, ?_⟩
            rw [@compareViewNode_kindMismatch key (TreeNodeStoredSchema.map vmf)
              (TreeNodeStoredSchema.object sfs) stored SchemaFactoryNodeKind.map
              SchemaFactoryNodeKind.object hm rfl rfl (by decide)] at h
            exact (Except.ok.inj h).symm
        | leaf sv =>
            left
            refine ⟨SchemaFactoryNodeKind.map, SchemaFactoryNodeKind.leaf,
              rfl, rfl, by decide, ?_⟩
            rw [@compareViewNode_kindMismatch key (TreeNodeStoredSchema.map vmf)
              (TreeNodeStoredSchema.leaf sv) stored SchemaFactoryNodeKind.map
              SchemaFactoryNodeKind.leaf hm rfl rfl (by decide)] at h
            exact (Except.ok.inj h).symm
        | map smf =>
            right; right; left
            refine ⟨vmf, smf, rfl, rfl, ?_⟩
            rw [compareViewNode_mapMap hm] at h
            exact (Except.ok.inj h).symm
    | leaf vv =>
        cases m with
        | unknown s =>
            exfalso
            simp [compareViewNode, hhas, hm, throwUnsupportedNodeType] at h
        | map smf =>
            left
            refine ⟨SchemaFactoryNodeKind.leaf, SchemaFactoryNodeKind.map,
              rfl, rfl, by decide, ?_⟩
            rw [@compareViewNode_kindMismatch key (TreeNodeStoredSchema.leaf vv)
              (TreeNodeStoredSchema.map smf) stored SchemaFactoryNodeKind.leaf
              SchemaFactoryNodeKind.map hm rfl rfl (by decide)] at h
            exact (Except.ok.inj h).symm
        | object sfs =>
            left
            refine ⟨SchemaFactoryNodeKind.leaf, SchemaFactoryNodeKind.object,
              rfl, rfl, by decide, ?_⟩
            rw [@compareViewNode_kindMismatch key (TreeNodeStoredSchema.leaf vv)
              (TreeNodeStoredSchema.object sfs) stored SchemaFactoryNodeKind.leaf
              SchemaFactoryNodeKind.object hm rfl rfl (by decide)] at h
            exact (Except.ok.inj h).symm
        | leaf sv =>
            right; right; right
            refine ⟨vv, sv, rfl, rfl, ?_⟩
            rw [compareViewNode_leafLeaf hm] at h
            exact (Except.ok.inj h).symm
  · have hf : mapHas stored.nodeSchema key = false := by simpa using hhas
    cases n with
    | unknown s => simp [compareViewNode, throwUnsupportedNodeType] at h
    | object vfs =>
        rw [@compareViewNode_missing key (TreeNodeStoredSchema.object vfs) stored rfl hf] at h
        exact Or.inl ⟨hf, rfl, (Except.ok.inj h).symm⟩
    | map vmf =>
        rw [@compareViewNode_missing key (TreeNodeStoredSchema.map vmf) stored rfl hf] at h
        exact Or.inl ⟨hf, rfl, (Except.ok.inj h).symm⟩
    | leaf vv =>
        rw [@compareViewNode_missing key (TreeNodeStoredSchema.leaf vv) stored rfl hf] at h
        exact Or.inl ⟨hf, rfl, (Except.ok.inj h).symm⟩

/-- A known node schema's `nodeKindOf` is defined. -/
lemma knownVariant_of_nodeKindOf {n : TreeNodeStoredSchema} {a : SchemaFactoryNodeKind}
    (h : nodeKindOf n = some a) : knownVariant n = true := by
  cases n <;> simp_all [nodeKindOf, knownVariant]

/-- On known node schemas the residual pass's kind label agrees with
`nodeKindOf`. -/
lemma residualNodeKind_of_nodeKindOf {n : TreeNodeStoredSchema} {a : SchemaFactoryNodeKind}
    (h : nodeKindOf n = some a) : residualNodeKind n = a := by
  cases n <;> simp_all [nodeKindOf, residualNodeKind]

lemma isNodeKindFor_id {k : String} {inc : Incompatibility}
    (h : isNodeKindFor k inc = true) : incIdentifier inc = some k := by
  cases inc with
  | nodeKind i v s =>
      simp only [isNodeKindFor, beq_iff_eq] at h
      simp [incIdentifier, h]
  | field f => simp [isNodeKindFor] at h
  | nodeFields i d => simp [isNodeKindFor] at h

lemma isNodeFieldsFor_id {k : String} {inc : Incompatibility}
    (h : isNodeFieldsFor k inc = true) : incIdentifier inc = some k := by
  cases inc with
  | nodeFields i d =>
      simp only [isNodeFieldsFor, beq_iff_eq] at h
      simp [incIdentifier, h]
  | field f => simp [isNodeFieldsFor] at h
  | nodeKind i v s => simp [isNodeFieldsFor] at h

lemma isValueSchemaFor_id {k : String} {inc : Incompatibility}
    (h : isValueSchemaFor k inc = true) : incIdentifier inc = some k := by
  cases inc with
  | field f =>
      cases f with
      | valueSchema i a b =>
          simp only [isValueSchemaFor, beq_iff_eq] at h
          simp [incIdentifier, fieldIdentifier, h]
      | allowedTypes i a b => simp [isValueSchemaFor] at h
      | fieldKind i a b => simp [isValueSchemaFor] at h
  | nodeKind i v s => simp [isValueSchemaFor] at h
  | nodeFields i d => simp [isValueSchemaFor] at h

lemma isFieldRecordFor_id {k : String} {inc : Incompatibility}
    (h : isFieldRecordFor k inc = true) : incIdentifier inc = some k := by
  cases inc with
  | field f =>
      simp only [isFieldRecordFor, beq_iff_eq] at h
      simp [incIdentifier, h]
  | nodeKind i v s => simp [isFieldRecordFor] at h
  | nodeFields i d => simp [isFieldRecordFor] at h

/-- Every root record is a field record scoped to the root (`none`). -/
lemma rootIncs_id (view stored : TreeStoredSchema) :
    ∀ inc ∈ rootIncompatibilities view stored, incIdentifier inc = none := by
  intro inc hinc
  obtain ⟨f, hf, rfl⟩ := List.mem_map.mp hinc
  have := (trackField_scoped _ _ none f hf).1
  simpa [incIdentifier] using this

/-- Every residual record is a `nodeKind` record for a stored entry whose key
the view lacks. -/
lemma residual_id (view stored : TreeStoredSchema) :
    ∀ inc ∈ residualIncompatibilities view stored,
      ∃ p ∈ stored.nodeSchema, mapHas view.nodeSchema p.1 = false ∧
        inc = Incompatibility.nodeKind p.1 none (some (residualNodeKind p.2)) := by
  intro inc hinc
  obtain ⟨p, hp, hsome⟩ := List.mem_filterMap.mp hinc
  by_cases hc : (view.nodeSchema.map (fun q => q.1)).contains p.1
  · rw [if_pos hc] at hsome; cases hsome
  · rw [if_neg hc] at hsome
    obtain rfl := Option.some.inj hsome
    refine ⟨p, hp, ?_, rfl⟩
    rw [← keysContains_eq_mapHas]
    simpa using hc

/-- Every record contributed by a segment of the residual pass is a
`nodeKind` record keyed by an entry of that segment. -/
lemma residual_segment_id (view : TreeStoredSchema)
    (s : List (TreeNodeSchemaIdentifier × TreeNodeStoredSchema)) :
    ∀ inc ∈ s.filterMap (fun p =>
        if (view.nodeSchema.map (fun q => q.1)).contains p.1 then none
        else some (Incompatibility.nodeKind p.1 none (some (residualNodeKind p.2)))),
      ∃ p ∈ s, incIdentifier inc = some p.1 := by
  intro inc hinc
  obtain ⟨p, hp, hsome⟩ := List.mem_filterMap.mp hinc
  by_cases hc : (view.nodeSchema.map (fun q => q.1)).contains p.1
  · rw [if_pos hc] at hsome; cases hsome
  · rw [if_neg hc] at hsome
    obtain rfl := Option.some.inj hsome
    exact ⟨p, hp, rfl⟩

/-- A key bound in a unique-key map splits the map around its entry. -/
lemma mapSplit_of_get {α : Type} {m : List (String × α)}
    (hnd : (m.map Prod.fst).Nodup) {k : String} {v : α}
    (h : mapGet m k = some v) :
    ∃ l1 l2, m = l1 ++ (k, v) :: l2 ∧
      (∀ p ∈ l1, p.1 ≠ k) ∧ (∀ p ∈ l2, p.1 ≠ k) := by
  obtain ⟨l1, l2, rfl⟩ := List.append_of_mem (mem_of_mapGet_eq_some h)
  refine ⟨l1, l2, rfl, ?_, ?_⟩
  · intro p hp he
    rw [List.map_append, List.map_cons] at hnd
    have hdisj := (List.nodup_append.mp hnd).2.2
    exact hdisj (List.mem_map_of_mem Prod.fst hp) (by simp [he])
  · intro p hp he
    rw [List.map_append, List.map_cons] at hnd
    have hk := (List.nodup_append.mp hnd).2.1
    rw [List.nodup_cons] at hk
    apply hk.1
    have hmem : p.1 ∈ List.map Prod.fst l2 := List.mem_map_of_mem Prod.fst hp
    rw [he] at hmem
    exact hmem

lemma forall₂_append_split {α β : Type} {R : α → β → Prop} :
    ∀ {l1 l2 : List α} {u : List β}, List.Forall₂ R (l1 ++ l2) u →
      ∃ u1 u2, u = u1 ++ u2 ∧ List.Forall₂ R l1 u1 ∧ List.Forall₂ R l2 u2 := by
  intro l1
  induction l1 with
  | nil => exact fun h => ⟨[], _, rfl, List.Forall₂.nil, h⟩
  | cons a t ih =>
      intro l2 u h
      rw [List.cons_append] at h
      obtain ⟨b, u', hr, ht, rfl⟩ := List.forall₂_cons_left_iff.mp h
      obtain ⟨u1, u2, rfl, h1, h2⟩ := ih ht
      exact ⟨b :: u1, u2, rfl, List.Forall₂.cons hr h1, h2⟩

/-- Every record of one successful view-loop iteration is scoped to that
iteration's key. -/
lemma compareViewNode_scoped {key : TreeNodeSchemaIdentifier}
    {n : TreeNodeStoredSchema} {stored : TreeStoredSchema} {out : List Incompatibility}
    (h : compareViewNode key n stored = Except.ok out) :
    ∀ inc ∈ out, incIdentifier inc = some key := by
  intro inc hinc
  rcases compareViewNode_describe h with ⟨_, _, rfl⟩ | ⟨m, hm, hcase⟩
  · simp only [List.mem_singleton] at hinc
    subst hinc
    rfl
  · rcases hcase with ⟨a, b, _, _, _, rfl⟩ | ⟨vfs, sfs, _, _, rfl⟩ |
      ⟨vmf, smf, _, _, rfl⟩ | ⟨vv, sv, _, _, rfl⟩
    · simp only [List.mem_singleton] at hinc
      subst hinc
      rfl
    · by_cases hlen : (trackObjectNodeDiscrepancies vfs sfs).length > 0
      · rw [if_pos hlen] at hinc
        simp only [List.mem_singleton] at hinc
        subst hinc
        rfl
      · rw [if_neg hlen] at hinc
        simp at hinc
    · obtain ⟨f, hf, rfl⟩ := List.mem_map.mp hinc
      have := (trackField_scoped vmf smf (some key) f hf).1
      simpa [incIdentifier] using this
    · by_cases hv : vv ≠ sv
      · rw [if_pos hv] at hinc
        simp only [List.mem_singleton] at hinc
        subst hinc
        rfl
      · rw [if_neg hv] at hinc
        simp at hinc

/-- A `nodeFields` record in one iteration's output comes from an
object/object comparison with a non-empty difference list. -/
lemma compareViewNode_nodeFields_elim {key : TreeNodeSchemaIdentifier}
    {n : TreeNodeStoredSchema} {stored : TreeStoredSchema} {out : List Incompatibility}
    {i : TreeNodeSchemaIdentifier} {d : List FieldIncompatibility}
    (h : compareViewNode key n stored = Except.ok out)
    (hmem : Incompatibility.nodeFields i d ∈ out) :
    i = key ∧ d ≠ [] ∧ ∃ vfs sfs, n = TreeNodeStoredSchema.object vfs ∧
      mapGet stored.nodeSchema key = some (TreeNodeStoredSchema.object sfs) ∧
      d = trackObjectNodeDiscrepancies vfs sfs := by
  rcases compareViewNode_describe h with ⟨_, _, rfl⟩ | ⟨m, hm, hcase⟩
  · simp at hmem
  · rcases hcase with ⟨a, b, _, _, _, rfl⟩ | ⟨vfs, sfs, hn, hm2, rfl⟩ |
      ⟨vmf, smf, hn, hm2, rfl⟩ | ⟨vv, sv, hn, hm2, rfl⟩
    · simp at hmem
    · by_cases hlen : (trackObjectNodeDiscrepancies vfs sfs).length > 0
      · rw [if_pos hlen] at hmem
        simp only [List.mem_singleton, Incompatibility.nodeFields.injEq] at hmem
        obtain ⟨rfl, rfl⟩ := hmem
        refine ⟨rfl, ?_, vfs, sfs, hn, by rw [← hm2]; exact hm, rfl⟩
        intro hnil
        rw [hnil] at hlen
        simp at hlen
      · rw [if_neg hlen] at hmem
        simp at hmem
    · exfalso
      obtain ⟨f, _, hf⟩ := List.mem_map.mp hmem
      cases hf
    · by_cases hv : vv ≠ sv
      · rw [if_pos hv] at hmem
        simp at hmem
      · rw [if_neg hv] at hmem
        simp at hmem

/-- Each record in the flattened view-loop output belongs to the successful
output of one of the loop's entries. -/
lemma forall₂_flatten_mem
    {entries : List (TreeNodeSchemaIdentifier × TreeNodeStoredSchema)}
    {parts : List (List Incompatibility)} {stored : TreeStoredSchema}
    (hf : List.Forall₂ (fun p out => compareViewNode p.1 p.2 stored = Except.ok out)
      entries parts) :
    ∀ inc ∈ parts.flatten, ∃ p out, p ∈ entries ∧
      compareViewNode p.1 p.2 stored = Except.ok out ∧ inc ∈ out := by
  induction hf with
  | nil => intro inc hinc; simp at hinc
  | cons hr ht ih =>
      intro inc hinc
      rw [List.flatten_cons] at hinc
      rcases List.mem_append.mp hinc with hcase | hcase
      · exact ⟨_, _, List.mem_cons_self _ _, hr, hcase⟩
      · obtain ⟨p, out, hp, hcmp, hmem⟩ := ih inc hcase
        exact ⟨p, out, List.mem_cons_of_mem _ hp, hcmp, hmem⟩

/-- Zero count on a segment whose records all avoid identifier `k`. -/
lemma countP_zero_of_id {q : Incompatibility → Bool} {k : String}
    (hq : ∀ inc, q inc = true → incIdentifier inc = some k)
    {seg : List Incompatibility} (hseg : ∀ inc ∈ seg, incIdentifier inc ≠ some k) :
    seg.countP q = 0 := by
  apply List.countP_eq_zero.mpr
  intro inc hinc hqi
  exact hseg inc hinc (hq inc hqi)

/-- Splitting the whole output around the iteration of a view key: the
records before and after that iteration's output are all scoped to other
identifiers. -/
lemma output_split_viewKey {view stored : TreeStoredSchema} {l : List Incompatibility}
    (hnd : (view.nodeSchema.map Prod.fst).Nodup)
    (h : getAllowedContentIncompatibilities view stored = Except.ok l)
    {k : TreeNodeSchemaIdentifier} {vn : TreeNodeStoredSchema}
    (hget : mapGet view.nodeSchema k = some vn) :
    ∃ out pre post, compareViewNode k vn stored = Except.ok out ∧
      l = pre ++ out ++ post ∧
      (∀ inc ∈ pre, incIdentifier inc ≠ some k) ∧
      (∀ inc ∈ post, incIdentifier inc ≠ some k) := by
  have hhasvk : mapHas view.nodeSchema k = true := mapGet_isSome_has hget
  rw [getIncs_eq] at h
  cases hpv : processViewNodes view.nodeSchema stored with
  | error e => rw [hpv] at h; cases h
  | ok nodeIncs =>
      rw [hpv] at h
      obtain rfl := Except.ok.inj h
      obtain ⟨parts, hf, rfl⟩ := processViewNodes_ok_forall₂ hpv
      obtain ⟨l1, l2, hsplit, h1, h2⟩ := mapSplit_of_get hnd hget
      rw [hsplit] at hf
      obtain ⟨parts1, parts2', hpeq, hf1, hf2⟩ := forall₂_append_split hf
      obtain ⟨out, parts2, hr, hft, hpeq2⟩ := List.forall₂_cons_left_iff.mp hf2
      subst hpeq2
      subst hpeq
      refine ⟨out, rootIncompatibilities view stored ++ parts1.flatten,
        parts2.flatten ++ residualIncompatibilities view stored, hr, ?_, ?_, ?_⟩
      · simp [List.flatten_append, List.flatten_cons, List.append_assoc]
      · intro inc hinc
        rcases List.mem_append.mp hinc with hcase | hcase
        · rw [rootIncs_id view stored inc hcase]
          simp
        · obtain ⟨p, out1, hp, hcmp, hmem⟩ := forall₂_flatten_mem hf1 inc hcase
          rw [compareViewNode_scoped hcmp inc hmem]
          have := h1 p hp
          simp [this]
      · intro inc hinc
        rcases List.mem_append.mp hinc with hcase | hcase
        · obtain ⟨p, out2, hp, hcmp, hmem⟩ := forall₂_flatten_mem hft inc hcase
          rw [compareViewNode_scoped hcmp inc hmem]
          have := h2 p hp
          simp [this]
        · obtain ⟨p, _, hphas, rfl⟩ := residual_id view stored inc hcase
          intro hc
          simp only [incIdentifier, Option.some.injEq] at hc
          rw [hc, hhasvk] at hphas
          cases hphas

/-- Splitting the whole output around the residual record of a stored-only
key: every other record is scoped to another identifier. -/
lemma output_split_storedKey {view stored : TreeStoredSchema} {l : List Incompatibility}
    (hndS : (stored.nodeSchema.map Prod.fst).Nodup)
    (h : getAllowedContentIncompatibilities view stored = Except.ok l)
    {k : TreeNodeSchemaIdentifier} {sn : TreeNodeStoredSchema}
    (hget : mapGet stored.nodeSchema k = some sn)
    (hnv : mapHas view.nodeSchema k = false) :
    ∃ pre post,
      l = pre ++ Incompatibility.nodeKind k none (some (residualNodeKind sn)) :: post ∧
      (∀ inc ∈ pre, incIdentifier inc ≠ some k) ∧
      (∀ inc ∈ post, incIdentifier inc ≠ some k) := by
  rw [getIncs_eq] at h
  cases hpv : processViewNodes view.nodeSchema stored with
  | error e => rw [hpv] at h; cases h
  | ok nodeIncs =>
      rw [hpv] at h
      obtain rfl := Except.ok.inj h
      obtain ⟨parts, hf, rfl⟩ := processViewNodes_ok_forall₂ hpv
      obtain ⟨s1, s2, hsplit, h1, h2⟩ := mapSplit_of_get hndS hget
      have hres : residualIncompatibilities view stored =
          s1.filterMap (fun p =>
            if (view.nodeSchema.map (fun q => q.1)).contains p.1 then none
            else some (Incompatibility.nodeKind p.1 none (some (residualNodeKind p.2))))
          ++ Incompatibility.nodeKind k none (some (residualNodeKind sn))
            :: s2.filterMap (fun p =>
              if (view.nodeSchema.map (fun q => q.1)).contains p.1 then none
              else some (Incompatibility.nodeKind p.1 none (some (residualNodeKind p.2)))) := by
        unfold residualIncompatibilities
        rw [hsplit, List.filterMap_append, List.filterMap_cons]
        have hc : ¬ (view.nodeSchema.map (fun q => q.1)).contains k = true := by
          rw [keysContains_eq_mapHas, hnv]
          simp
        rw [if_neg hc]
      refine ⟨rootIncompatibilities view stored ++ parts.flatten
          ++ s1.filterMap (fun p =>
            if (view.nodeSchema.map (fun q => q.1)).contains p.1 then none
            else some (Incompatibility.nodeKind p.1 none (some (residualNodeKind p.2)))),
        s2.filterMap (fun p =>
            if (view.nodeSchema.map (fun q => q.1)).contains p.1 then none
            else some (Incompatibility.nodeKind p.1 none (some (residualNodeKind p.2)))),
        ?_, ?_, ?_⟩
      · rw [hres]
        simp [List.append_assoc]
      · intro inc hinc
        rcases List.mem_append.mp hinc with hcase | hcase
        · rcases List.mem_append.mp hcase with hc2 | hc2
          · rw [rootIncs_id view stored inc hc2]
            simp
          · obtain ⟨p, out1, hp, hcmp, hmem⟩ := forall₂_flatten_mem hf inc hc2
            rw [compareViewNode_scoped hcmp inc hmem]
            intro hc
            simp only [Option.some.injEq] at hc
            have hhk : mapHas view.nodeSchema p.1 = true := mapHas_true_of_mem hp
            rw [hc, hnv] at hhk
            cases hhk
        · obtain ⟨p, hp, hid⟩ := residual_segment_id view s1 inc hcase
          rw [hid]
          have := h1 p hp
          simp [this]
      · intro inc hinc
        obtain ⟨p, hp, hid⟩ := residual_segment_id view s2 inc hinc
        rw [hid]
        have := h2 p hp
        simp [this]

/-- A failing view-loop iteration means an unsupported node-schema variant
was encountered, and the error is the `throwUnsupportedNodeType` message. -/
lemma compareViewNode_error_elim {key : TreeNodeSchemaIdentifier}
    {n : TreeNodeStoredSchema} {stored : TreeStoredSchema} {e : String}
    (h : compareViewNode key n stored = Except.error e) :
    (knownVariant n = false ∨
      ∃ m, mapGet stored.nodeSchema key = some m ∧ knownVariant m = false)
    ∧ ∃ name, e = unsupportedNodeTypeMessage name := by
  by_cases hhas : mapHas stored.nodeSchema key = true
  · obtain ⟨m, hm⟩ := Option.isSome_iff_exists.mp
      (by rw [← mapHas_eq_isSome]; exact hhas)
    cases n with
    | unknown s =>
        refine ⟨Or.inl rfl, s, ?_⟩
        simp only [compareViewNode, throwUnsupportedNodeType, Except.error.injEq] at h
        exact h.symm
    | object vfs =>
        cases m with
        | unknown s =>
            refine ⟨Or.inr ⟨TreeNodeStoredSchema.unknown s, hm, rfl⟩, s, ?_⟩
            simp [compareViewNode, hhas, hm, throwUnsupportedNodeType] at h
            exact h.symm
        | map f =>
            exfalso
            rw [@compareViewNode_kindMismatch key (TreeNodeStoredSchema.object vfs)
              (TreeNodeStoredSchema.map f) stored SchemaFactoryNodeKind.object
              SchemaFactoryNodeKind.map hm rfl rfl (by decide)] at h
            cases h
        | leaf v =>
            exfalso
            rw [@compareViewNode_kindMismatch key (TreeNodeStoredSchema.object vfs)
              (TreeNodeStoredSchema.leaf v) stored SchemaFactoryNodeKind.object
              SchemaFactoryNodeKind.leaf hm rfl rfl (by decide)] at h
            cases h
        | object sfs =>
            exfalso
            rw [compareViewNode_objectObject hm] at h
            cases h
    | map vmf =>
        cases m with
        | unknown s =>
            refine ⟨Or.inr ⟨TreeNodeStoredSchema.unknown s, hm, rfl⟩, s, ?_⟩
            simp [compareViewNode, hhas, hm, throwUnsupportedNodeType] at h
            exact h.symm
        | object sfs =>
            exfalso
            rw [@compareViewNode_kindMismatch key (TreeNodeStoredSchema.map vmf)
              (TreeNodeStoredSchema.object sfs) stored SchemaFactoryNodeKind.map
              SchemaFactoryNodeKind.object hm rfl rfl (by decide)] at h
            cases h
        | leaf sv =>
            exfalso
            rw [@compareViewNode_kindMismatch key (TreeNodeStoredSchema.map vmf)
              (TreeNodeStoredSchema.leaf sv) stored SchemaFactoryNodeKind.map
              SchemaFactoryNodeKind.leaf hm rfl rfl (by decide)] at h
            cases h
        | map smf =>
            exfalso
            rw [compareViewNode_mapMap hm] at h
            cases h
    | leaf vv =>
        cases m with
        | unknown s =>
            refine ⟨Or.inr ⟨TreeNodeStoredSchema.unknown s, hm, rfl⟩, s, ?_⟩
            simp [compareViewNode, hhas, hm, throwUnsupportedNodeType] at h
            exact h.symm
        | map smf =>
            exfalso
            rw [@compareViewNode_kindMismatch key (TreeNodeStoredSchema.leaf vv)
              (TreeNodeStoredSchema.map smf) stored SchemaFactoryNodeKind.leaf
              SchemaFactoryNodeKind.map hm rfl rfl (by decide)] at h
            cases h
        | object sfs =>
            exfalso
            rw [@compareViewNode_kindMismatch key (TreeNodeStoredSchema.leaf vv)
              (TreeNodeStoredSchema.object sfs) stored SchemaFactoryNodeKind.leaf
              SchemaFactoryNodeKind.object hm rfl rfl (by decide)] at h
            cases h
        | leaf sv =>
            exfalso
            rw [compareViewNode_leafLeaf hm] at h
            cases h
  · have hfalse : mapHas stored.nodeSchema key = false := by simpa using hhas
    cases n with
    | unknown s =>
        refine ⟨Or.inl rfl, s, ?_⟩
        simp only [compareViewNode, throwUnsupportedNodeType, Except.error.injEq] at h
        exact h.symm
    | object vfs =>
        exfalso
        rw [@compareViewNode_missing key (TreeNodeStoredSchema.object vfs)
          stored rfl hfalse] at h
        cases h
    | map vmf =>
        exfalso
        rw [@compareViewNode_missing key (TreeNodeStoredSchema.map vmf)
          stored rfl hfalse] at h
        cases h
    | leaf vv =>
        exfalso
        rw [@compareViewNode_missing key (TreeNodeStoredSchema.leaf vv)
          stored rfl hfalse] at h
        cases h

/-- Conversely, an unsupported variant encountered by one iteration makes
that iteration fail. -/
lemma compareViewNode_error_intro {key : TreeNodeSchemaIdentifier}
    {n : TreeNodeStoredSchema} {stored : TreeStoredSchema}
    (h : knownVariant n = false ∨
      ∃ m, mapGet stored.nodeSchema key = some m ∧ knownVariant m = false) :
    ∃ e, compareViewNode key n stored = Except.error e := by
  rcases h with hn | ⟨m, hm, hmk⟩
  · cases n with
    | unknown s => exact ⟨unsupportedNodeTypeMessage s, rfl⟩
    | leaf vv => simp [knownVariant] at hn
    | map f => simp [knownVariant] at hn
    | object fs => simp [knownVariant] at hn
  · have hhas : mapHas stored.nodeSchema key = true := mapGet_isSome_has hm
    cases m with
    | unknown s =>
        cases n with
        | unknown s2 => exact ⟨unsupportedNodeTypeMessage s2, rfl⟩
        | leaf vv =>
            exact ⟨unsupportedNodeTypeMessage s,
              by simp [compareViewNode, hhas, hm, throwUnsupportedNodeType]⟩
        | map f =>
            exact ⟨unsupportedNodeTypeMessage s,
              by simp [compareViewNode, hhas, hm, throwUnsupportedNodeType]⟩
        | object fs =>
            exact ⟨unsupportedNodeTypeMessage s,
              by simp [compareViewNode, hhas, hm, throwUnsupportedNodeType]⟩
    | leaf sv => simp [knownVariant] at hmk
    | map smf => simp [knownVariant] at hmk
    | object sfs => simp [knownVariant] at hmk

/-- A node schema compared against its own entry yields nothing. -/
lemma compareViewNode_self {A : TreeStoredSchema}
    (hnd : (A.nodeSchema.map Prod.fst).Nodup)
    {p : TreeNodeSchemaIdentifier × TreeNodeStoredSchema} (hp : p ∈ A.nodeSchema)
    (hk : knownVariant p.2 = true) :
    compareViewNode p.1 p.2 A = Except.ok [] := by
  obtain ⟨key, n⟩ := p
  have hget : mapGet A.nodeSchema key = some n := mapGet_eq_some_of_mem hnd hp
  cases n with
  | leaf vv =>
      rw [compareViewNode_leafLeaf hget]
      simp
  | map vmf =>
      rw [compareViewNode_mapMap hget]
      simp [trackFieldDiscrepancies_self]
  | object vfs =>
      rw [compareViewNode_objectObject hget]
      simp [trackObjectNodeDiscrepancies_self]
  | unknown s => simp [knownVariant] at hk

lemma processViewNodes_all_empty
    {entries : List (TreeNodeSchemaIdentifier × TreeNodeStoredSchema)}
    {stored : TreeStoredSchema}
    (h : ∀ p ∈ entries, compareViewNode p.1 p.2 stored = Except.ok []) :
    processViewNodes entries stored = Except.ok [] := by
  induction entries with
  | nil => rfl
  | cons p t ih =>
      rw [processViewNodes_cons, h p (List.mem_cons_self _ _),
        ih (fun q hq => h q (List.mem_cons_of_mem _ hq))]
      rfl

end WalkLemmas

/-- C5 witness: `undefined` versus `{X}` yields `view = []`, `stored = [X]`;
`undefined` versus `undefined` and `undefined` versus the empty set yield no
allowed-type record. -/
theorem undefinedTypes_cases_witness :
    (trackFieldDiscrepancies ⟨"k", none⟩ ⟨"k", some ["X"]⟩ none).filter
        isAllowedTypeRecord = [FieldIncompatibility.allowedTypes none [] ["X"]] ∧
    (trackFieldDiscrepancies ⟨"k", none⟩ ⟨"k", none⟩ none).filter
        isAllowedTypeRecord = [] ∧
    (trackFieldDiscrepancies ⟨"k", none⟩ ⟨"k", some []⟩ none).filter
        isAllowedTypeRecord = [] := by
  refine ⟨?_, ?_, ?_⟩
  · have h := (undefinedTypes_cases ⟨"k", none⟩ ⟨"k", some ["X"]⟩ none).2.1 ["X"] rfl rfl
    rw [h]
    rfl
  · exact (undefinedTypes_cases ⟨"k", none⟩ ⟨"k", none⟩ none).1 rfl rfl
  · have h := (undefinedTypes_cases ⟨"k", none⟩ ⟨"k", some []⟩ none).2.1 [] rfl rfl
    rw [h]
    rfl

/-- A record whose predicate forces identifier `k` is `false` on records
scoped elsewhere. -/
lemma not_id_imp_false {q : Incompatibility → Bool} {k : String} {inc : Incompatibility}
    (hq : ∀ inc, q inc = true → incIdentifier inc = some k)
    (hid : incIdentifier inc ≠ some k) : q inc = false := by
  cases h : q inc
  · rfl
  · exact absurd (hq inc h) hid

/-- C1: comparing a well-formed schema (unique node keys, only known node
variants) against itself — or a structurally identical clone — returns the
empty incompatibility list. -/
theorem selfComparisonEmpty (A : TreeStoredSchema) (h : wellFormed A) :
    getAllowedContentIncompatibilities A A = Except.ok [] := by
  obtain ⟨hnd, hknown⟩ := h
  rw [getIncs_eq,
    processViewNodes_all_empty (fun p hp => compareViewNode_self hnd hp (hknown p hp))]
  have hroot : rootIncompatibilities A A = [] := by
    simp [rootIncompatibilities, trackFieldDiscrepancies_self]
  have hres : residualIncompatibilities A A = [] := by
    unfold residualIncompatibilities
    apply List.filterMap_eq_nil_iff.mpr
    intro p hp
    have hc : (A.nodeSchema.map (fun q => q.1)).contains p.1 = true := by
      have hh := mapHas_true_of_mem hp
      rw [← keysContains_eq_mapHas] at hh
      exact hh
    rw [if_pos hc]
  rw [hroot, hres]
  rfl

/-- C1 witness: a concrete well-formed schema with nodes of all three kinds
compares equal to itself. -/
theorem selfComparisonEmpty_witness :
    wellFormed wfSample ∧
    getAllowedContentIncompatibilities wfSample wfSample = Except.ok [] :=
  ⟨by decide, selfComparisonEmpty wfSample (by decide)⟩

/-- C2: an identifier present on exactly one side yields exactly one
`nodeKind` record carrying the present side's kind and `undefined` for the
missing side. -/
theorem nodeCoverage (view stored : TreeStoredSchema) (l : List Incompatibility)
    (hndV : (view.nodeSchema.map Prod.fst).Nodup)
    (hndS : (stored.nodeSchema.map Prod.fst).Nodup)
    (h : getAllowedContentIncompatibilities view stored = Except.ok l) :
    (∀ k vn kv, mapGet view.nodeSchema k = some vn → nodeKindOf vn = some kv →
      mapHas stored.nodeSchema k = false →
      l.countP (isNodeKindFor k) = 1 ∧
        Incompatibility.nodeKind k (some kv) none ∈ l)
    ∧ (∀ k sn sk, mapGet stored.nodeSchema k = some sn → nodeKindOf sn = some sk →
      mapHas view.nodeSchema k = false →
      l.countP (isNodeKindFor k) = 1 ∧
        Incompatibility.nodeKind k none (some sk) ∈ l) := by
  constructor
  · intro k vn kv hgv hkv hmiss
    obtain ⟨out, pre, post, hcmp, rfl, hpre, hpost⟩ := output_split_viewKey hndV h hgv
    rw [compareViewNode_missing (knownVariant_of_nodeKindOf hkv) hmiss] at hcmp
    obtain rfl := Except.ok.inj hcmp
    rw [hkv]
    constructor
    · rw [List.countP_append, List.countP_append,
        countP_zero_of_id (fun inc hq => isNodeKindFor_id hq) hpre,
        countP_zero_of_id (fun inc hq => isNodeKindFor_id hq) hpost]
      simp [List.countP_cons, isNodeKindFor]
    · simp
  · intro k sn sk hgs hks hmiss
    obtain ⟨pre, post, rfl, hpre, hpost⟩ := output_split_storedKey hndS h hgs hmiss
    rw [residualNodeKind_of_nodeKindOf hks]
    constructor
    · rw [List.countP_append, List.countP_cons,
        countP_zero_of_id (fun inc hq => isNodeKindFor_id hq) hpre,
        countP_zero_of_id (fun inc hq => isNodeKindFor_id hq) hpost]
      simp [isNodeKindFor]
    · simp

/-- C2 witness: one view-only object node and one stored-only leaf node each
yield exactly one one-sided `nodeKind` record. -/
theorem nodeCoverage_witness :
    getAllowedContentIncompatibilities viewOnlyNodeSample storedOnlyNodeSample =
      Except.ok
        [Incompatibility.nodeKind "OnlyV" (some SchemaFactoryNodeKind.object) none,
         Incompatibility.nodeKind "OnlyS" none (some SchemaFactoryNodeKind.leaf)] ∧
    ([Incompatibility.nodeKind "OnlyV" (some SchemaFactoryNodeKind.object) none,
      Incompatibility.nodeKind "OnlyS" none
        (some SchemaFactoryNodeKind.leaf)].countP (isNodeKindFor "OnlyV") = 1 ∧
      Incompatibility.nodeKind "OnlyV" (some SchemaFactoryNodeKind.object) none ∈
        [Incompatibility.nodeKind "OnlyV" (some SchemaFactoryNodeKind.object) none,
         Incompatibility.nodeKind "OnlyS" none (some SchemaFactoryNodeKind.leaf)]) ∧
    ([Incompatibility.nodeKind "OnlyV" (some SchemaFactoryNodeKind.object) none,
      Incompatibility.nodeKind "OnlyS" none
        (some SchemaFactoryNodeKind.leaf)].countP (isNodeKindFor "OnlyS") = 1 ∧
      Incompatibility.nodeKind "OnlyS" none (some SchemaFactoryNodeKind.leaf) ∈
        [Incompatibility.nodeKind "OnlyV" (some SchemaFactoryNodeKind.object) none,
         Incompatibility.nodeKind "OnlyS" none (some SchemaFactoryNodeKind.leaf)]) := by
  refine ⟨rfl, ?_, ?_⟩
  · exact (nodeCoverage viewOnlyNodeSample storedOnlyNodeSample _
      (by decide) (by decide) rfl).1 "OnlyV" (TreeNodeStoredSchema.object [])
      SchemaFactoryNodeKind.object rfl rfl rfl
  · exact (nodeCoverage viewOnlyNodeSample storedOnlyNodeSample _
      (by decide) (by decide) rfl).2 "OnlyS" (TreeNodeStoredSchema.leaf (some 2))
      SchemaFactoryNodeKind.leaf rfl rfl rfl

/-- C3: an identifier present in both schemas with differing node kinds gets
a two-sided `nodeKind` record, and the output carries no `nodeFields`,
`valueSchema` or field-level record for that identifier. -/
theorem kindMismatchExclusive (view stored : TreeStoredSchema) (l : List Incompatibility)
    (hndV : (view.nodeSchema.map Prod.fst).Nodup)
    (h : getAllowedContentIncompatibilities view stored = Except.ok l) :
    ∀ k vn sn kv sk, mapGet view.nodeSchema k = some vn →
      mapGet stored.nodeSchema k = some sn →
      nodeKindOf vn = some kv → nodeKindOf sn = some sk → kv ≠ sk →
      Incompatibility.nodeKind k (some kv) (some sk) ∈ l
      ∧ (∀ d, Incompatibility.nodeFields k d ∉ l)
      ∧ (∀ inc ∈ l, isValueSchemaFor k inc = false)
      ∧ (∀ inc ∈ l, isFieldRecordFor k inc = false) := by
  intro k vn sn kv sk hgv hgs hkv hks hne
  obtain ⟨out, pre, post, hcmp, rfl, hpre, hpost⟩ := output_split_viewKey hndV h hgv
  rw [compareViewNode_kindMismatch hgs hkv hks hne] at hcmp
  obtain rfl := Except.ok.inj hcmp
  refine ⟨by simp, ?_, ?_, ?_⟩
  · intro d hd
    rcases List.mem_append.mp hd with hc | hc
    · rcases List.mem_append.mp hc with hc2 | hc2
      · exact hpre _ hc2 rfl
      · simp at hc2
    · exact hpost _ hc rfl
  · intro inc hinc
    rcases List.mem_append.mp hinc with hc | hc
    · rcases List.mem_append.mp hc with hc2 | hc2
      · exact not_id_imp_false (fun i hq => isValueSchemaFor_id hq) (hpre inc hc2)
      · simp only [List.mem_singleton] at hc2
        subst hc2
        rfl
    · exact not_id_imp_false (fun i hq => isValueSchemaFor_id hq) (hpost inc hc)
  · intro inc hinc
    rcases List.mem_append.mp hinc with hc | hc
    · rcases List.mem_append.mp hc with hc2 | hc2
      · exact not_id_imp_false (fun i hq => isFieldRecordFor_id hq) (hpre inc hc2)
      · simp only [List.mem_singleton] at hc2
        subst hc2
        rfl
    · exact not_id_imp_false (fun i hq => isFieldRecordFor_id hq) (hpost inc hc)

/-- C3 witness: node `N`, a leaf in the view and a map in the stored schema,
yields the two-sided kind record and nothing else for `N`. -/
theorem kindMismatchExclusive_witness :
    getAllowedContentIncompatibilities viewKindSample storedKindSample =
      Except.ok [Incompatibility.nodeKind "N" (some SchemaFactoryNodeKind.leaf)
        (some SchemaFactoryNodeKind.map)] ∧
    (Incompatibility.nodeKind "N" (some SchemaFactoryNodeKind.leaf)
        (some SchemaFactoryNodeKind.map) ∈
      [Incompatibility.nodeKind "N" (some SchemaFactoryNodeKind.leaf)
        (some SchemaFactoryNodeKind.map)]
      ∧ (∀ d, Incompatibility.nodeFields "N" d ∉
          [Incompatibility.nodeKind "N" (some SchemaFactoryNodeKind.leaf)
            (some SchemaFactoryNodeKind.map)])
      ∧ (∀ inc ∈ [Incompatibility.nodeKind "N" (some SchemaFactoryNodeKind.leaf)
            (some SchemaFactoryNodeKind.map)], isValueSchemaFor "N" inc = false)
      ∧ (∀ inc ∈ [Incompatibility.nodeKind "N" (some SchemaFactoryNodeKind.leaf)
            (some SchemaFactoryNodeKind.map)], isFieldRecordFor "N" inc = false)) := by
  refine ⟨rfl, ?_⟩
  exact kindMismatchExclusive viewKindSample storedKindSample _ (by decide) rfl
    "N" (TreeNodeStoredSchema.leaf (some 0)) (TreeNodeStoredSchema.map ⟨"m", none⟩)
    SchemaFactoryNodeKind.leaf SchemaFactoryNodeKind.map rfl rfl rfl rfl (by decide)

/-- C6: on success the output is the root-field records, then each view
entry's records in the view map's iteration order, then the residual
`nodeKind` records in the stored map's iteration order; and inside one
generic field comparison the allowed-type record precedes the field-kind
record when both apply. -/
theorem outputOrdering (view stored : TreeStoredSchema) (l : List Incompatibility)
    (h : getAllowedContentIncompatibilities view stored = Except.ok l) :
    (∃ parts, List.Forall₂ (fun p out => compareViewNode p.1 p.2 stored = Except.ok out)
        view.nodeSchema parts ∧
      l = rootIncompatibilities view stored ++ parts.flatten
        ++ residualIncompatibilities view stored)
    ∧ ∀ (vf sf : TreeFieldStoredSchema) (key : Option String),
        ((findSetDiscrepancies vf.types sf.types).1.length > 0 ∨
          (findSetDiscrepancies vf.types sf.types).2.length > 0) →
        vf.kind ≠ sf.kind →
        trackFieldDiscrepancies vf sf key =
          [FieldIncompatibility.allowedTypes key
            (findSetDiscrepancies vf.types sf.types).1
            (findSetDiscrepancies vf.types sf.types).2,
          FieldIncompatibility.fieldKind key (some vf.kind) (some sf.kind)] := by
  constructor
  · rw [getIncs_eq] at h
    cases hpv : processViewNodes view.nodeSchema stored with
    | error e => rw [hpv] at h; cases h
    | ok nodeIncs =>
        rw [hpv] at h
        obtain rfl := Except.ok.inj h
        obtain ⟨parts, hf, rfl⟩ := processViewNodes_ok_forall₂ hpv
        exact ⟨parts, hf, rfl⟩
  · intro vf sf key hd hk
    simp [trackFieldDiscrepancies, hd, hk]

/-- C6 witness: a concrete run decomposes into the three ordered segments,
and a concrete field comparison emits the allowed-type record before the
field-kind record. -/
theorem outputOrdering_witness :
    (∃ parts, List.Forall₂
        (fun p out => compareViewNode p.1 p.2 storedOnlyNodeSample = Except.ok out)
        viewOnlyNodeSample.nodeSchema parts ∧
      [Incompatibility.nodeKind "OnlyV" (some SchemaFactoryNodeKind.object) none,
       Incompatibility.nodeKind "OnlyS" none (some SchemaFactoryNodeKind.leaf)] =
        rootIncompatibilities viewOnlyNodeSample storedOnlyNodeSample ++ parts.flatten
          ++ residualIncompatibilities viewOnlyNodeSample storedOnlyNodeSample)
    ∧ trackFieldDiscrepancies ⟨"optional", some ["A"]⟩ ⟨"required", some ["B"]⟩ none =
        [FieldIncompatibility.allowedTypes none ["A"] ["B"],
         FieldIncompatibility.fieldKind none (some "optional") (some "required")] := by
  constructor
  · exact (outputOrdering viewOnlyNodeSample storedOnlyNodeSample _ rfl).1
  · have h := (outputOrdering viewOnlyNodeSample storedOnlyNodeSample _ rfl).2
      ⟨"optional", some ["A"]⟩ ⟨"required", some ["B"]⟩ none (by decide) (by decide)
    rw [h]
    rfl

/-- C7: the function throws exactly when some view node schema, or the
stored node schema fetched at a view-shared key, is none of the three known
variants; all-known inputs never throw. -/
theorem throwIffUnknownVariant (view stored : TreeStoredSchema) :
    (∃ e, getAllowedContentIncompatibilities view stored = Except.error e) ↔
      ∃ p ∈ view.nodeSchema, knownVariant p.2 = false ∨
        ∃ m, mapGet stored.nodeSchema p.1 = some m ∧ knownVariant m = false := by
  constructor
  · rintro ⟨e, he⟩
    rw [getIncs_eq] at he
    cases hpv : processViewNodes view.nodeSchema stored with
    | error e2 =>
        obtain ⟨p, hp, hc⟩ := processViewNodes_error_mem hpv
        exact ⟨p, hp, (compareViewNode_error_elim hc).1⟩
    | ok nodeIncs => rw [hpv] at he; cases he
  · rintro ⟨p, hp, hcond⟩
    obtain ⟨e, he⟩ := processViewNodes_error_of_mem hp (compareViewNode_error_intro hcond)
    exact ⟨e, by rw [getIncs_eq, he]⟩

/-- C7 witness: a schema holding a foreign node-schema object makes the
comparison throw. -/
theorem throwIffUnknownVariant_witness :
    ∃ e, getAllowedContentIncompatibilities unknownNodeSample emptyNodeSample =
      Except.error e :=
  (throwIffUnknownVariant unknownNodeSample emptyNodeSample).mpr
    ⟨("X", TreeNodeStoredSchema.unknown "Weird"), by decide, Or.inl rfl⟩

/-- C10: `Map.has` implies `Map.get` is defined — the three `assert`
branches are unreachable — so every failure of the walk carries the
`throwUnsupportedNodeType` message, never an assertion message. -/
theorem assertionsUnreachable (view stored : TreeStoredSchema) :
    (∀ (m : List (String × TreeNodeStoredSchema)) (k : String),
        mapHas m k = true → (mapGet m k).isSome = true)
    ∧ ∀ e, getAllowedContentIncompatibilities view stored = Except.error e →
        ∃ name, e = unsupportedNodeTypeMessage name := by
  constructor
  · intro m k hk
    rw [← mapHas_eq_isSome]
    exact hk
  · intro e he
    rw [getIncs_eq] at he
    cases hpv : processViewNodes view.nodeSchema stored with
    | error e2 =>
        rw [hpv] at he
        obtain rfl := Except.error.inj he
        obtain ⟨p, hp, hc⟩ := processViewNodes_error_mem hpv
        exact (compareViewNode_error_elim hc).2
    | ok nodeIncs => rw [hpv] at he; cases he

/-- C10 witness: a concrete `has`/`get` agreement, and a concrete throwing
run whose error is the unsupported-node-type message. -/
theorem assertionsUnreachable_witness :
    mapHas [("a", TreeNodeStoredSchema.leaf (some 0))] "a" = true ∧
    (mapGet [("a", TreeNodeStoredSchema.leaf (some 0))] "a").isSome = true ∧
    getAllowedContentIncompatibilities unknownNodeSample emptyNodeSample =
      Except.error (unsupportedNodeTypeMessage "Weird") ∧
    ∃ name, unsupportedNodeTypeMessage "Weird" = unsupportedNodeTypeMessage name :=
  ⟨rfl,
   (assertionsUnreachable unknownNodeSample emptyNodeSample).1 _ "a" rfl,
   rfl,
   (assertionsUnreachable unknownNodeSample emptyNodeSample).2 _ rfl⟩

/-- C9: kind-matched dispatch shapes — every emitted `nodeFields` record has
a non-empty difference list; map/map differences are emitted directly (never
wrapped in a `nodeFields` record); object/object differences are wrapped in
one `nodeFields` record exactly when non-empty; leaf/leaf emits exactly one
`valueSchema` record when the values differ and none otherwise. -/
theorem kindMatchedDispatch (view stored : TreeStoredSchema) (l : List Incompatibility)
    (hndV : (view.nodeSchema.map Prod.fst).Nodup)
    (h : getAllowedContentIncompatibilities view stored = Except.ok l) :
    (∀ i d, Incompatibility.nodeFields i d ∈ l → d ≠ [])
    ∧ (∀ k vmf smf, mapGet view.nodeSchema k = some (TreeNodeStoredSchema.map vmf) →
        mapGet stored.nodeSchema k = some (TreeNodeStoredSchema.map smf) →
        (∀ f ∈ trackFieldDiscrepancies vmf smf (some k), Incompatibility.field f ∈ l)
        ∧ ∀ d, Incompatibility.nodeFields k d ∉ l)
    ∧ (∀ k vfs sfs, mapGet view.nodeSchema k = some (TreeNodeStoredSchema.object vfs) →
        mapGet stored.nodeSchema k = some (TreeNodeStoredSchema.object sfs) →
        (trackObjectNodeDiscrepancies vfs sfs ≠ [] →
          Incompatibility.nodeFields k (trackObjectNodeDiscrepancies vfs sfs) ∈ l)
        ∧ (trackObjectNodeDiscrepancies vfs sfs = [] →
          ∀ d, Incompatibility.nodeFields k d ∉ l))
    ∧ (∀ k vv sv, mapGet view.nodeSchema k = some (TreeNodeStoredSchema.leaf vv) →
        mapGet stored.nodeSchema k = some (TreeNodeStoredSchema.leaf sv) →
        (vv ≠ sv → l.countP (isValueSchemaFor k) = 1 ∧
          Incompatibility.field (FieldIncompatibility.valueSchema k vv sv) ∈ l)
        ∧ (vv = sv → l.countP (isValueSchemaFor k) = 0)) := by
  refine ⟨?_, ?_, ?_, ?_⟩
  · intro i d hd
    rw [getIncs_eq] at h
    cases hpv : processViewNodes view.nodeSchema stored with
    | error e => rw [hpv] at h; cases h
    | ok nodeIncs =>
        rw [hpv] at h
        obtain rfl := Except.ok.inj h
        obtain ⟨parts, hf, rfl⟩ := processViewNodes_ok_forall₂ hpv
        rcases List.mem_append.mp hd with hc | hc
        · rcases List.mem_append.mp hc with hc2 | hc2
          · obtain ⟨f, _, hfe⟩ := List.mem_map.mp hc2
            cases hfe
          · obtain ⟨p, out, hp, hcmp, hmem⟩ := forall₂_flatten_mem hf _ hc2
            exact (compareViewNode_nodeFields_elim hcmp hmem).2.1
        · obtain ⟨p, _, _, hJson⟩ := residual_id view stored _ hc
          cases hJson
  · intro k vmf smf hgv hgs
    obtain ⟨out, pre, post, hcmp, rfl, hpre, hpost⟩ := output_split_viewKey hndV h hgv
    rw [compareViewNode_mapMap hgs] at hcmp
    obtain rfl := Except.ok.inj hcmp
    constructor
    · intro f hfm
      exact List.mem_append.mpr (Or.inl (List.mem_append.mpr
        (Or.inr (List.mem_map_of_mem Incompatibility.field hfm))))
    · intro d hd
      rcases List.mem_append.mp hd with hc | hc
      · rcases List.mem_append.mp hc with hc2 | hc2
        · exact hpre _ hc2 rfl
        · obtain ⟨f, _, hfe⟩ := List.mem_map.mp hc2
          cases hfe
      · exact hpost _ hc rfl
  · intro k vfs sfs hgv hgs
    obtain ⟨out, pre, post, hcmp, rfl, hpre, hpost⟩ := output_split_viewKey hndV h hgv
    rw [compareViewNode_objectObject hgs] at hcmp
    obtain rfl := Except.ok.inj hcmp
    constructor
    · intro hne
      have hlen : (trackObjectNodeDiscrepancies vfs sfs).length > 0 :=
        List.length_pos.mpr hne
      rw [if_pos hlen]
      exact List.mem_append.mpr (Or.inl (List.mem_append.mpr
        (Or.inr (List.mem_singleton.mpr rfl))))
    · intro hnil d hd
      have hlen : ¬ (trackObjectNodeDiscrepancies vfs sfs).length > 0 := by
        rw [hnil]; simp
      rw [if_neg hlen] at hd
      rcases List.mem_append.mp hd with hc | hc
      · rcases List.mem_append.mp hc with hc2 | hc2
        · exact hpre _ hc2 rfl
        · simp at hc2
      · exact hpost _ hc rfl
  · intro k vv sv hgv hgs
    obtain ⟨out, pre, post, hcmp, rfl, hpre, hpost⟩ := output_split_viewKey hndV h hgv
    rw [compareViewNode_leafLeaf hgs] at hcmp
    obtain rfl := Except.ok.inj hcmp
    constructor
    · intro hne
      rw [if_pos hne]
      constructor
      · rw [List.countP_append, List.countP_append,
          countP_zero_of_id (fun inc hq => isValueSchemaFor_id hq) hpre,
          countP_zero_of_id (fun inc hq => isValueSchemaFor_id hq) hpost]
        simp [List.countP_cons, isValueSchemaFor]
      · exact List.mem_append.mpr (Or.inl (List.mem_append.mpr
          (Or.inr (List.mem_singleton.mpr rfl))))
    · intro heq
      have hne : ¬ vv ≠ sv := by simp [heq]
      rw [if_neg hne]
      rw [List.countP_append, List.countP_append,
        countP_zero_of_id (fun inc hq => isValueSchemaFor_id hq) hpre,
        countP_zero_of_id (fun inc hq => isValueSchemaFor_id hq) hpost]
      simp

/-- C9 witness: in the concrete dispatch sample the map/map record is
emitted directly, the object/object differences are wrapped once, and the
leaf/leaf pair yields exactly one `valueSchema` record. -/
theorem kindMatchedDispatch_witness :
    (∀ f ∈ trackFieldDiscrepancies ⟨"optional", some ["A"]⟩ ⟨"optional", some ["B"]⟩
        (some "MM"),
      Incompatibility.field f ∈
        [Incompatibility.field (FieldIncompatibility.valueSchema "L" (some 1) (some 2)),
         Incompatibility.field
           (FieldIncompatibility.allowedTypes (some "MM") ["A"] ["B"]),
         Incompatibility.nodeFields "OO"
           [FieldIncompatibility.fieldKind (some "f") (some "x") none,
            FieldIncompatibility.fieldKind (some "g") none (some "y")]])
    ∧ Incompatibility.nodeFields "OO"
        (trackObjectNodeDiscrepancies [("f", ⟨"x", none⟩)] [("g", ⟨"y", none⟩)]) ∈
        [Incompatibility.field (FieldIncompatibility.valueSchema "L" (some 1) (some 2)),
         Incompatibility.field
           (FieldIncompatibility.allowedTypes (some "MM") ["A"] ["B"]),
         Incompatibility.nodeFields "OO"
           [FieldIncompatibility.fieldKind (some "f") (some "x") none,
            FieldIncompatibility.fieldKind (some "g") none (some "y")]]
    ∧ ([Incompatibility.field (FieldIncompatibility.valueSchema "L" (some 1) (some 2)),
        Incompatibility.field
          (FieldIncompatibility.allowedTypes (some "MM") ["A"] ["B"]),
        Incompatibility.nodeFields "OO"
          [FieldIncompatibility.fieldKind (some "f") (some "x") none,
           FieldIncompatibility.fieldKind (some "g") none
             (some "y")]].countP (isValueSchemaFor "L") = 1
      ∧ Incompatibility.field (FieldIncompatibility.valueSchema "L" (some 1) (some 2)) ∈
        [Incompatibility.field (FieldIncompatibility.valueSchema "L" (some 1) (some 2)),
         Incompatibility.field
           (FieldIncompatibility.allowedTypes (some "MM") ["A"] ["B"]),
         Incompatibility.nodeFields "OO"
           [FieldIncompatibility.fieldKind (some "f") (some "x") none,
            FieldIncompatibility.fieldKind (some "g") none (some "y")]]) := by
  have hthm := kindMatchedDispatch viewDispatchSample storedDispatchSample _
    (by decide) rfl
  exact ⟨(hthm.2.1 "MM" ⟨"optional", some ["A"]⟩ ⟨"optional", some ["B"]⟩ rfl rfl).1,
    (hthm.2.2.1 "OO" [("f", ⟨"x", none⟩)] [("g", ⟨"y", none⟩)] rfl rfl).1 (by decide),
    (hthm.2.2.2 "L" (some 1) (some 2) rfl rfl).1 (by decide)⟩

end SchemaDiscrepancy
